import Mathlib

/-!
# Verification of the sparse-matrix repository

This file gives a shallow embedding, in Lean 4, of the two Python
implementations contained in the repository:

* `src/main.py` — embedded below in namespace `Canon` (the variant the
  specification adopts as canonical: header-declared dimensions,
  zero-suppressing setter, full bounds checks, dimension checks);
* `src/matrix/code/src/main.py` — embedded in namespace `Var` (the
  dimension-inferring variant: setter stores zeros and checks only the
  upper bounds, addition/subtraction merge into a max-dimension matrix,
  loading ignores the header lines).

Python dictionaries keyed by `(row, col)` pairs are embedded as
association lists with pairwise-distinct keys; Python exceptions are
embedded as an `Except` error type whose constructors record which
`raise` site produced them.
-/

/-- A matrix coordinate `(row, col)`; Python stores `int` pairs. -/
abbrev Coord : Type := Int × Int

/-- The entry map of a sparse matrix: an association list embedding a
Python `dict` keyed by coordinate pairs with integer values. -/
abbrev SMap : Type := List (Coord × Int)

/-- Embeds Python `d[k]`-style lookup (`d.get(k)` returning `None` when
absent): the value at the first occurrence of key `k`. -/
def dictLookup : SMap → Coord → Option Int
  | [], _ => none
  | e :: rest, k => if e.1 = k then some e.2 else dictLookup rest k

/-- Embeds Python `k in d`. -/
def dictContains (m : SMap) (k : Coord) : Bool :=
  (dictLookup m k).isSome

/-- Embeds Python `d[k] = v`: updates the first occurrence of `k` in
place, or appends a new entry at the end (Python dicts preserve
insertion order and update in place). -/
def dictInsert : SMap → Coord → Int → SMap
  | [], k, v => [(k, v)]
  | e :: rest, k, v => if e.1 = k then (k, v) :: rest else e :: dictInsert rest k v

/-- Embeds Python `del d[k]` (tolerating an absent key, in which case the
map is returned unchanged; `src/main.py` only deletes after an `in` check). -/
def dictErase : SMap → Coord → SMap
  | [], _ => []
  | e :: rest, k => if e.1 = k then rest else e :: dictErase rest k

/-- The list of keys of the map, embedding `d.keys()`. -/
def dictKeys (m : SMap) : List Coord :=
  m.map Prod.fst

/-! ## Dictionary lemmas -/

theorem dictLookup_eq_none_of_not_mem {m : SMap} {k : Coord} (h : k ∉ dictKeys m) :
    dictLookup m k = none := by
  induction m with
  | nil => rfl
  | cons e rest ih =>
    simp only [dictKeys, List.map_cons, List.mem_cons] at h
    push_neg at h
    simp only [dictLookup, if_neg (Ne.symm h.1)]
    exact ih (by simpa [dictKeys] using h.2)

theorem mem_keys_of_dictLookup_some {m : SMap} {k : Coord} {v : Int}
    (h : dictLookup m k = some v) : k ∈ dictKeys m := by
  induction m with
  | nil => simp [dictLookup] at h
  | cons e rest ih =>
    simp only [dictLookup] at h
    by_cases he : e.1 = k
    · simp [dictKeys, he]
    · simp only [if_neg he] at h
      simp [dictKeys, List.mem_cons] at ih ⊢
      exact Or.inr (by simpa [dictKeys] using ih h)

theorem mem_of_dictLookup_some {m : SMap} {k : Coord} {v : Int}
    (h : dictLookup m k = some v) : (k, v) ∈ m := by
  induction m with
  | nil => simp [dictLookup] at h
  | cons e rest ih =>
    simp only [dictLookup] at h
    by_cases he : e.1 = k
    · rw [if_pos he] at h
      injection h with hv
      rw [List.mem_cons]
      left
      cases e
      simp_all
    · rw [if_neg he] at h
      exact List.mem_cons_of_mem _ (ih h)

theorem dictLookup_insert_self (m : SMap) (k : Coord) (v : Int) :
    dictLookup (dictInsert m k v) k = some v := by
  induction m with
  | nil => simp [dictInsert, dictLookup]
  | cons e rest ih =>
    by_cases he : e.1 = k
    · simp [dictInsert, if_pos he, dictLookup]
    · simp [dictInsert, if_neg he, dictLookup, if_neg he, ih]

theorem dictLookup_insert_ne (m : SMap) (k k' : Coord) (v : Int) (h : k' ≠ k) :
    dictLookup (dictInsert m k v) k' = dictLookup m k' := by
  induction m with
  | nil =>
    simp only [dictInsert, dictLookup]
    rw [if_neg (Ne.symm h)]
  | cons e rest ih =>
    by_cases he : e.1 = k
    · subst he
      have hins : dictInsert (e :: rest) e.1 v = (e.1, v) :: rest := by
        simp [dictInsert]
      rw [hins]
      simp only [dictLookup]
      rw [if_neg (Ne.symm h), if_neg (Ne.symm h)]
    · simp only [dictInsert, if_neg he, dictLookup]
      by_cases he' : e.1 = k'
      · simp [if_pos he']
      · simp [if_neg he', ih]

theorem dictLookup_erase_ne (m : SMap) (k k' : Coord) (h : k' ≠ k) :
    dictLookup (dictErase m k) k' = dictLookup m k' := by
  induction m with
  | nil => rfl
  | cons e rest ih =>
    by_cases he : e.1 = k
    · simp only [dictErase, if_pos he, dictLookup]
      rw [if_neg (by rw [he]; exact fun hh => h hh.symm)]
    · simp only [dictErase, if_neg he, dictLookup]
      by_cases he' : e.1 = k'
      · simp [if_pos he']
      · simp [if_neg he', ih]

theorem dictLookup_erase_self (m : SMap) (k : Coord) (hnd : (dictKeys m).Nodup) :
    dictLookup (dictErase m k) k = none := by
  induction m with
  | nil => rfl
  | cons e rest ih =>
    simp only [dictKeys, List.map_cons, List.nodup_cons] at hnd
    by_cases he : e.1 = k
    · simp only [dictErase, if_pos he]
      exact dictLookup_eq_none_of_not_mem (by rw [← he]; exact hnd.1)
    · simp only [dictErase, if_neg he, dictLookup, if_neg he]
      exact ih hnd.2

theorem mem_keys_insert {m : SMap} {k k' : Coord} {v : Int} :
    k' ∈ dictKeys (dictInsert m k v) ↔ k' ∈ dictKeys m ∨ k' = k := by
  induction m with
  | nil => simp [dictInsert, dictKeys]
  | cons e rest ih =>
    by_cases he : e.1 = k
    · subst he
      simp [dictInsert, dictKeys]
      tauto
    · simp only [dictInsert, if_neg he, dictKeys, List.map_cons, List.mem_cons]
      rw [dictKeys] at ih
      tauto

theorem nodup_keys_insert {m : SMap} {k : Coord} {v : Int}
    (hnd : (dictKeys m).Nodup) : (dictKeys (dictInsert m k v)).Nodup := by
  induction m with
  | nil => simp [dictInsert, dictKeys]
  | cons e rest ih =>
    simp only [dictKeys, List.map_cons, List.nodup_cons] at hnd
    by_cases he : e.1 = k
    · have hins : dictInsert (e :: rest) k v = (k, v) :: rest := by
        simp [dictInsert, he]
      rw [hins]
      simp only [dictKeys, List.map_cons, List.nodup_cons]
      exact ⟨he ▸ hnd.1, hnd.2⟩
    · have hins : dictInsert (e :: rest) k v = e :: dictInsert rest k v := by
        simp [dictInsert, he]
      rw [hins]
      simp only [dictKeys, List.map_cons, List.nodup_cons]
      refine ⟨fun hmem => ?_, ih hnd.2⟩
      rcases (mem_keys_insert (m := rest) (k := k) (v := v)).1 (by simpa [dictKeys] using hmem) with h | h
      · exact hnd.1 (by simpa [dictKeys] using h)
      · exact he h

theorem keys_erase_sublist (m : SMap) (k : Coord) :
    (dictKeys (dictErase m k)).Sublist (dictKeys m) := by
  induction m with
  | nil => simp [dictErase, dictKeys]
  | cons e rest ih =>
    by_cases he : e.1 = k
    · simp only [dictErase, if_pos he, dictKeys, List.map_cons]
      exact (List.sublist_cons_self _ _)
    · simp only [dictErase, if_neg he, dictKeys, List.map_cons]
      exact ih.cons₂ _

theorem nodup_keys_erase {m : SMap} {k : Coord} (hnd : (dictKeys m).Nodup) :
    (dictKeys (dictErase m k)).Nodup :=
  (keys_erase_sublist m k).nodup hnd

theorem mem_of_mem_erase {m : SMap} {k : Coord} {e : Coord × Int}
    (h : e ∈ dictErase m k) : e ∈ m := by
  induction m with
  | nil => simp [dictErase] at h
  | cons e' rest ih =>
    by_cases he : e'.1 = k
    · simp only [dictErase, if_pos he] at h
      exact List.mem_cons_of_mem _ h
    · simp only [dictErase, if_neg he, List.mem_cons] at h
      rcases h with h | h
      · simp [h]
      · exact List.mem_cons_of_mem _ (ih h)

theorem mem_insert_cases {m : SMap} {k : Coord} {v : Int} {e : Coord × Int}
    (h : e ∈ dictInsert m k v) : e ∈ m ∨ e = (k, v) := by
  induction m with
  | nil => simpa [dictInsert] using h
  | cons e' rest ih =>
    by_cases he : e'.1 = k
    · simp only [dictInsert, if_pos he, List.mem_cons] at h
      rcases h with h | h
      · exact Or.inr h
      · exact Or.inl (List.mem_cons_of_mem _ h)
    · simp only [dictInsert, if_neg he, List.mem_cons] at h
      rcases h with h | h
      · exact Or.inl (by simp [h])
      · rcases ih h with h' | h'
        · exact Or.inl (List.mem_cons_of_mem _ h')
        · exact Or.inr h'

theorem exists_val_of_mem_keys {m : SMap} {k : Coord} (h : k ∈ dictKeys m) :
    ∃ v, (k, v) ∈ m := by
  induction m with
  | nil => simp [dictKeys] at h
  | cons e rest ih =>
    simp only [dictKeys, List.map_cons, List.mem_cons] at h
    rcases h with h | h
    · refine ⟨e.2, ?_⟩
      rw [List.mem_cons]
      left
      cases e
      simp_all
    · rcases ih (by simpa [dictKeys] using h) with ⟨v, hv⟩
      exact ⟨v, List.mem_cons_of_mem _ hv⟩

/-! ## The error model

Each constructor records one `raise` site of the Python sources; the
comments give the Python exception class and message it embeds. -/

/-- Python exceptions raised by the two implementations. -/
inductive PyError : Type
  /-- `IndexError("Index out of bounds")` raised by `set_element`. -/
  | indexError : PyError
  /-- `ValueError` raised by the dimension guards of `add`/`subtract`/
  `multiply` (the spec's `DimensionMismatchError`). -/
  | dimensionMismatch : PyError
  /-- `ValueError("Input file has wrong format")` (and the variant's
  analogous shape messages) raised for a malformed coordinate line or a
  too-short file. -/
  | wrongFormat : PyError
  /-- `ValueError("invalid literal for int() ...")` raised by `int(...)`. -/
  | intParseError : PyError
  /-- `IndexError` raised by `lines[i].strip().split('=')[1]` when the
  header line contains no `=`. -/
  | headerIndexError : PyError
  /-- `ValueError(f"Error reading file: {e}")`: `src/main.py` wraps every
  exception `e` escaping the load body in this `ValueError`. -/
  | fileError (inner : PyError) : PyError
  /-- `ValueError(f"Input file has wrong format: {e}")`: the variant wraps
  the `ValueError`s of `parse_line` in this `ValueError`. -/
  | formatWrap (inner : PyError) : PyError
deriving DecidableEq, Repr

/-- Whether the embedded exception is of Python class `IndexError`
(rather than `ValueError`). -/
def PyError.isIndexErrorClass : PyError → Bool
  | .indexError => true
  | .headerIndexError => true
  | _ => false

/-- The sparse matrix object: `num_rows`/`num_cols` and the entry
dictionary (field `data` in `src/main.py`, `elements` in the variant). -/
structure SparseMatrix : Type where
  numRows : Int
  numCols : Int
  data : SMap
deriving DecidableEq, Repr

/-! ## Python string and `int()` helpers

These embed the string operations the loaders use: `str.strip`,
`str.split(sep)`, `str.startswith`/`endswith`, and `int(...)` parsing
(including Python's sign handling and digit-group underscores). -/

/-- Whether a character is stripped by Python `str.strip()` (the ASCII
whitespace characters). -/
def isPySpace (c : Char) : Bool :=
  c = ' ' || c.toNat = 9 || c.toNat = 10 || c.toNat = 13 || c.toNat = 11 || c.toNat = 12

/-- Embeds Python `s.strip()` on the character list of `s`. -/
def pyStripChars (l : List Char) : List Char :=
  ((l.dropWhile isPySpace).reverse.dropWhile isPySpace).reverse

/-- Embeds Python `s.strip()`. -/
def pyStrip (s : String) : String :=
  String.mk (pyStripChars s.data)

/-- Embeds Python `s.split(sep)` for a one-character separator: splits on
every occurrence, keeping empty fragments. -/
def pySplit (sep : Char) : List Char → List (List Char)
  | [] => [[]]
  | c :: rest =>
    let r := pySplit sep rest
    if c = sep then [] :: r
    else
      match r with
      | [] => [[c]]
      | h :: t => (c :: h) :: t

/-- Valid continuation of a Python integer literal after a digit:
digits, possibly separated by single underscores. -/
def digitsRest : List Char → Bool
  | [] => true
  | '_' :: [] => false
  | '_' :: c2 :: rest2 => c2.isDigit && digitsRest rest2
  | c :: rest => c.isDigit && digitsRest rest

/-- A valid unsigned Python integer literal body: a digit followed by
digits with optional single underscores between digits. -/
def digitsOK : List Char → Bool
  | [] => false
  | c :: rest => c.isDigit && digitsRest rest

/-- Numeric value of a digit list, skipping group underscores. -/
def digitsVal (l : List Char) : Nat :=
  l.foldl (fun acc c => if c = '_' then acc else acc * 10 + (c.toNat - 48)) 0

/-- Embeds Python `int(s)`: strips whitespace, accepts an optional sign
followed by an underscore-grouped digit string; `none` embeds the
`ValueError` that `int` raises on anything else. -/
def pyInt (s : String) : Option Int :=
  match pyStripChars s.data with
  | '-' :: rest => if digitsOK rest then some (-(digitsVal rest : Int)) else none
  | '+' :: rest => if digitsOK rest then some ((digitsVal rest : Int)) else none
  | l => if digitsOK l then some ((digitsVal l : Int)) else none

/-- Embeds Python `line.startswith(c)` for a single character. -/
def pyStartsWith (c : Char) : List Char → Bool
  | [] => false
  | x :: _ => x = c

/-- Embeds Python `line.endswith(c)` for a single character. -/
def pyEndsWith (c : Char) (l : List Char) : Bool :=
  match l.getLast? with
  | some x => x = c
  | none => false

/-- Embeds the shared coordinate-line parsing of both sources (the body
of the `for` loop in `src/main.py._load_from_file` and `parse_line` of
the variant): the stripped line must match `(<int>,<int>,<int>)`.
Expects the already-stripped character list. -/
def parseTriple (l : List Char) : Except PyError (Int × Int × Int) :=
  if pyStartsWith '(' l && pyEndsWith ')' l then
    match pySplit ',' (l.drop 1).dropLast with
    | [p0, p1, p2] =>
      match pyInt (String.mk p0), pyInt (String.mk p1), pyInt (String.mk p2) with
      | some r, some c, some v => .ok (r, c, v)
      | _, _, _ => .error .intParseError
    | _ => .error .wrongFormat
  else .error .wrongFormat

/-- Embeds `int(lines[i].strip().split('=')[1])` of `src/main.py`: the
indexing `[1]` raises `IndexError` when the line has no `=`; `int`
raises `ValueError` when the field after the first `=` is not an
integer. Note the source never checks the text before the `=`. -/
def parseHeader (line : String) : Except PyError Int :=
  match pySplit '=' (pyStrip line).data with
  | _ :: p1 :: _ =>
    match pyInt (String.mk p1) with
    | some n => .ok n
    | none => .error .intParseError
  | _ => .error .headerIndexError

/-- Embeds Python `range(n)` as a list of `Int` (empty for `n ≤ 0`). -/
def intRange (n : Int) : List Int :=
  List.map (fun (i : Nat) => (i : Int)) (List.range n.toNat)

/-! ## The canonical implementation (`src/main.py`) -/

namespace Canon

/-- Embeds `SparseMatrix.get_element` of `src/main.py`: the stored value,
or `0` when the coordinate is absent. No bounds check. -/
def getElement (m : SparseMatrix) (row col : Int) : Int :=
  (dictLookup m.data (row, col)).getD 0

/-- Embeds `SparseMatrix.set_element` of `src/main.py`: bounds-checks all
four inequalities, raising `IndexError` on violation; deletes the entry
when `value == 0`, stores it otherwise. -/
def setElement (m : SparseMatrix) (row col value : Int) : Except PyError SparseMatrix :=
  if row < 0 ∨ row ≥ m.numRows ∨ col < 0 ∨ col ≥ m.numCols then
    .error .indexError
  else if value = 0 then
    .ok { m with data := dictErase m.data (row, col) }
  else
    .ok { m with data := dictInsert m.data (row, col) value }

/-- Embeds `set(self.data.keys()).union(other.data.keys())` as a
duplicate-free iteration order over the union of the key sets (Python
set iteration order is arbitrary; the operations are order-independent). -/
def unionKeys (a b : SMap) : List Coord :=
  dictKeys a ++ (dictKeys b).filter (fun k => decide (k ∉ dictKeys a))

/-- The shared loop body of `add` and `subtract` in `src/main.py`: for
each key of the union, store `combine` of the two retrieved values into
the result via the bounds-checked setter. -/
def combineLoop (a b : SparseMatrix) (combine : Int → Int → Int) :
    List Coord → SparseMatrix → Except PyError SparseMatrix
  | [], result => .ok result
  | k :: rest, result =>
    match setElement result k.1 k.2 (combine (getElement a k.1 k.2) (getElement b k.1 k.2)) with
    | .error e => .error e
    | .ok r => combineLoop a b combine rest r

/-- Embeds `SparseMatrix.add` of `src/main.py`. -/
def add (a b : SparseMatrix) : Except PyError SparseMatrix :=
  if a.numRows ≠ b.numRows ∨ a.numCols ≠ b.numCols then
    .error .dimensionMismatch
  else
    combineLoop a b (fun x y => x + y) (unionKeys a.data b.data) ⟨a.numRows, a.numCols, []⟩

/-- Embeds `SparseMatrix.subtract` of `src/main.py`. -/
def subtract (a b : SparseMatrix) : Except PyError SparseMatrix :=
  if a.numRows ≠ b.numRows ∨ a.numCols ≠ b.numCols then
    .error .dimensionMismatch
  else
    combineLoop a b (fun x y => x - y) (unionKeys a.data b.data) ⟨a.numRows, a.numCols, []⟩

/-- The inner loop of `SparseMatrix.multiply` in `src/main.py`: for the
entry `(i, j) -> v` of the left operand and each `k` of
`range(other.num_cols)`, accumulate into `result[i, k]` when `(j, k)`
is stored in the right operand. -/
def mulInner (b : SparseMatrix) (i j v : Int) :
    List Int → SparseMatrix → Except PyError SparseMatrix
  | [], result => .ok result
  | k :: rest, result =>
    if dictContains b.data (j, k) then
      match setElement result i k (getElement result i k + v * getElement b j k) with
      | .error e => .error e
      | .ok r => mulInner b i j v rest r
    else mulInner b i j v rest result

/-- The outer loop of `SparseMatrix.multiply` in `src/main.py`, iterating
over the stored entries of the left operand. -/
def mulOuter (b : SparseMatrix) :
    SMap → SparseMatrix → Except PyError SparseMatrix
  | [], result => .ok result
  | e :: rest, result =>
    match mulInner b e.1.1 e.1.2 e.2 (intRange b.numCols) result with
    | .error er => .error er
    | .ok r => mulOuter b rest r

/-- Embeds `SparseMatrix.multiply` of `src/main.py`: inner-dimension
check, then sparse accumulation into a fresh
`num_rows × other.num_cols` result. -/
def multiply (a b : SparseMatrix) : Except PyError SparseMatrix :=
  if a.numCols ≠ b.numRows then
    .error .dimensionMismatch
  else
    mulOuter b a.data ⟨a.numRows, b.numCols, []⟩

/-- The entry loop of `_load_from_file` over `lines[2:]`: skip blank
lines, parse each remaining line as a triple, apply the bounds-checked
setter. -/
def processLines : List String → SparseMatrix → Except PyError SparseMatrix
  | [], m => .ok m
  | line :: rest, m =>
    if (pyStrip line).data = [] then processLines rest m
    else
      match parseTriple (pyStrip line).data with
      | .error e => .error e
      | .ok (r, c, v) =>
        match setElement m r c v with
        | .error e => .error e
        | .ok m' => processLines rest m'

/-- The body of `_load_from_file` of `src/main.py` before exception
wrapping: length check, the two header parses, then the entry loop
starting from an empty matrix. -/
def loadBody (lines : List String) : Except PyError SparseMatrix :=
  if lines.length < 2 then .error .wrongFormat
  else
    match parseHeader (lines.getD 0 "") with
    | .error e => .error e
    | .ok nr =>
      match parseHeader (lines.getD 1 "") with
      | .error e => .error e
      | .ok nc => processLines (lines.drop 2) ⟨nr, nc, []⟩

/-- Embeds `_load_from_file` of `src/main.py` applied to the list of
lines read from the file: any exception escaping the body is caught and
re-raised as `ValueError(f"Error reading file: {e}")`. -/
def loadFromText (lines : List String) : Except PyError SparseMatrix :=
  match loadBody lines with
  | .ok m => .ok m
  | .error e => .error (.fileError e)

end Canon

/-! ## The dimension-inferring variant (`src/matrix/code/src/main.py`) -/

namespace Var

/-- Embeds `SparseMatrix.get_element` of the variant:
`self.elements.get((row, col), 0)`. -/
def getElement (m : SparseMatrix) (row col : Int) : Int :=
  (dictLookup m.data (row, col)).getD 0

/-- Embeds `SparseMatrix.set_element` of the variant: only the upper
bounds are checked (`row >= self.num_rows or col >= self.num_cols`), and
the value is stored unconditionally — zero values are kept. -/
def setElement (m : SparseMatrix) (row col value : Int) : Except PyError SparseMatrix :=
  if row ≥ m.numRows ∨ col ≥ m.numCols then
    .error .indexError
  else
    .ok { m with data := dictInsert m.data (row, col) value }

/-- The first loop of `__add__`/`__sub__`: copy every entry of the left
operand into the result via `set_element`. -/
def copyLoop : SMap → SparseMatrix → Except PyError SparseMatrix
  | [], result => .ok result
  | e :: rest, result =>
    match setElement result e.1.1 e.1.2 e.2 with
    | .error er => .error er
    | .ok r => copyLoop rest r

/-- The second loop of `__add__`/`__sub__`: for every entry of the right
operand, store `combine` of the current result value and the entry value. -/
def accLoop (combine : Int → Int → Int) :
    SMap → SparseMatrix → Except PyError SparseMatrix
  | [], result => .ok result
  | e :: rest, result =>
    match setElement result e.1.1 e.1.2 (combine (getElement result e.1.1 e.1.2) e.2) with
    | .error er => .error er
    | .ok r => accLoop combine rest r

/-- Embeds `SparseMatrix.__add__` of the variant: no dimension check; the
result has `max` dimensions and merges the two entry maps. -/
def add (a b : SparseMatrix) : Except PyError SparseMatrix :=
  match copyLoop a.data ⟨max a.numRows b.numRows, max a.numCols b.numCols, []⟩ with
  | .error er => .error er
  | .ok r => accLoop (fun x y => x + y) b.data r

/-- Embeds `SparseMatrix.__sub__` of the variant: no dimension check; the
result has `max` dimensions. -/
def subtract (a b : SparseMatrix) : Except PyError SparseMatrix :=
  match copyLoop a.data ⟨max a.numRows b.numRows, max a.numCols b.numCols, []⟩ with
  | .error er => .error er
  | .ok r => accLoop (fun x y => x - y) b.data r

/-- The dense dot product of `__mul__`: the `sum_value` accumulated over
`k in range(self.num_cols)` for target cell `(i, j)`. -/
def mulCell (a b : SparseMatrix) (i j : Int) : Int :=
  (intRange a.numCols).foldl (fun acc k => acc + getElement a i k * getElement b k j) 0

/-- The inner (column) loop of `__mul__`: store `sum_value` at `(i, j)`
only when it is non-zero. -/
def mulColLoop (a b : SparseMatrix) (i : Int) :
    List Int → SparseMatrix → Except PyError SparseMatrix
  | [], result => .ok result
  | j :: rest, result =>
    if mulCell a b i j ≠ 0 then
      match setElement result i j (mulCell a b i j) with
      | .error er => .error er
      | .ok r => mulColLoop a b i rest r
    else mulColLoop a b i rest result

/-- The outer (row) loop of `__mul__`. -/
def mulRowLoop (a b : SparseMatrix) :
    List Int → SparseMatrix → Except PyError SparseMatrix
  | [], result => .ok result
  | i :: rest, result =>
    match mulColLoop a b i (intRange b.numCols) result with
    | .error er => .error er
    | .ok r => mulRowLoop a b rest r

/-- Embeds `SparseMatrix.__mul__` of the variant: inner-dimension check,
then the dense triple loop over the full index ranges. -/
def multiply (a b : SparseMatrix) : Except PyError SparseMatrix :=
  if a.numCols ≠ b.numRows then
    .error .dimensionMismatch
  else
    mulRowLoop a b (intRange a.numRows) ⟨a.numRows, b.numCols, []⟩

/-- The entry loop of the variant's `load_from_file` over `lines[2:]`
(the two header lines are skipped without being read): blank lines are
skipped; each parsed triple grows the inferred dimensions to
`max(num_rows, row + 1)` / `max(num_cols, col + 1)` and is stored
directly in the element dictionary (no bounds check, no
zero-suppression); a `ValueError` from `parse_line` is re-raised as
`ValueError(f"Input file has wrong format: {e}")`. -/
def loadLoop : List String → Int → Int → SMap → Except PyError (Int × Int × SMap)
  | [], nr, nc, elems => .ok (nr, nc, elems)
  | line :: rest, nr, nc, elems =>
    if (pyStrip line).data = [] then loadLoop rest nr nc elems
    else
      match parseTriple (pyStrip line).data with
      | .error e => .error (.formatWrap e)
      | .ok (r, c, v) =>
        loadLoop rest (max nr (r + 1)) (max nc (c + 1)) (dictInsert elems (r, c) v)

/-- Embeds the variant's `load_from_file` applied to the lines of the
file: dimensions start at `0` and are inferred from the triples. -/
def loadFromText (lines : List String) : Except PyError SparseMatrix :=
  match loadLoop (lines.drop 2) 0 0 [] with
  | .ok (nr, nc, elems) => .ok ⟨nr, nc, elems⟩
  | .error e => .error e

end Var

/-! ## Specification-side notions -/

/-- The coordinate lies inside the declared `numRows × numCols` bounds. -/
def InBounds (nr nc : Int) (p : Coord) : Prop :=
  0 ≤ p.1 ∧ p.1 < nr ∧ 0 ≤ p.2 ∧ p.2 < nc

instance (nr nc : Int) (p : Coord) : Decidable (InBounds nr nc p) := by
  unfold InBounds
  infer_instance

/-- No stored entry has value `0` (the spec's zero-suppression invariant). -/
def NoZeroMap (m : SMap) : Prop :=
  ∀ e ∈ m, e.2 ≠ 0

/-- Well-formed matrix object: pairwise-distinct keys (automatic for a
Python dict), every stored coordinate within the declared bounds, and no
stored zero — the data-model invariant of the specification. -/
def WF (m : SparseMatrix) : Prop :=
  (dictKeys m.data).Nodup ∧
    (∀ e ∈ m.data, InBounds m.numRows m.numCols e.1) ∧ NoZeroMap m.data

instance (m : SparseMatrix) : Decidable (WF m) := by
  unfold WF NoZeroMap
  infer_instance

/-- The mathematical matrix-product entry: the integer sum over
`j ∈ range cols` of `A.get(i, j) * B.get(j, k)` — the quantity named by
the specification's multiplication contract. -/
def prodSum (cols : Int) (A B : SMap) (i k : Int) : Int :=
  ((intRange cols).map
    (fun j => ((dictLookup A (i, j)).getD 0) * ((dictLookup B (j, k)).getD 0))).sum

/-- The total contribution accumulated at target `(i, k)` by the sparse
outer loop when processing the entry list `E` of the left operand. -/
def contrib (E : SMap) (B : SMap) (i k : Int) : Int :=
  (E.map (fun e => if e.1.1 = i then e.2 * ((dictLookup B (e.1.2, k)).getD 0) else 0)).sum

/-- The dimension the variant's loader infers from a key list: the
maximum of `idx + 1` over the keys, floored at `0`. -/
def inferBound (f : Coord → Int) (ks : List Coord) : Int :=
  ks.foldl (fun acc p => max acc (f p + 1)) 0

/-- Decidable equality for `Except` results, so that concrete runs of the
embedded operations can be checked by `decide`. -/
instance {ε α : Type} [DecidableEq ε] [DecidableEq α] : DecidableEq (Except ε α) := fun x y =>
  match x, y with
  | .ok a, .ok b =>
    if h : a = b then .isTrue (by rw [h])
    else .isFalse (fun hh => h (by injection hh))
  | .ok _, .error _ => .isFalse (fun hh => Except.noConfusion hh)
  | .error _, .ok _ => .isFalse (fun hh => Except.noConfusion hh)
  | .error e, .error f =>
    if h : e = f then .isTrue (by rw [h])
    else .isFalse (fun hh => h (by injection hh))

/-! ## Setter characterization (canonical) -/

/-- The value the matrix holds at `p` (`0` when absent) — shared reading
of `get_element` in both implementations. -/
def valAt (m : SparseMatrix) (p : Coord) : Int :=
  (dictLookup m.data p).getD 0

theorem Canon.getElement_eq_valAt (m : SparseMatrix) (r c : Int) :
    Canon.getElement m r c = valAt m (r, c) := rfl

theorem Var.getElement_is_valAt (m : SparseMatrix) (r c : Int) :
    Var.getElement m r c = valAt m (r, c) := rfl

theorem Canon.setElement_error_of_not_inBounds (m : SparseMatrix) (r c v : Int)
    (h : ¬ InBounds m.numRows m.numCols (r, c)) :
    Canon.setElement m r c v = .error .indexError := by
  unfold Canon.setElement
  rw [if_pos]
  unfold InBounds at h
  push_neg at h
  simp only [ge_iff_le]
  by_cases h1 : r < 0
  · exact Or.inl h1
  · push_neg at h1
    by_cases h2 : m.numRows ≤ r
    · exact Or.inr (Or.inl h2)
    · push_neg at h2
      by_cases h3 : c < 0
      · exact Or.inr (Or.inr (Or.inl h3))
      · push_neg at h3
        exact Or.inr (Or.inr (Or.inr (h h1 h2 h3)))

theorem Canon.setElement_eq_ok (m : SparseMatrix) (r c v : Int)
    (h : InBounds m.numRows m.numCols (r, c)) :
    Canon.setElement m r c v =
      .ok ⟨m.numRows, m.numCols,
        if v = 0 then dictErase m.data (r, c) else dictInsert m.data (r, c) v⟩ := by
  obtain ⟨h1, h2, h3, h4⟩ := h
  unfold Canon.setElement
  rw [if_neg]
  · by_cases hv : v = 0
    · rw [if_pos hv, if_pos hv]
    · rw [if_neg hv, if_neg hv]
  · push_neg
    exact ⟨h1, h2, h3, h4⟩

/-- After a successful in-bounds `set_element` of `src/main.py`, the
lookup function of the result is the pointwise update of the old one:
`v` stored at `(r, c)` when `v ≠ 0`, the coordinate absent when `v = 0`,
everything else unchanged. -/
theorem Canon.setElement_lookup (m : SparseMatrix) (r c v : Int)
    (h : InBounds m.numRows m.numCols (r, c)) (hnd : (dictKeys m.data).Nodup) :
    ∃ m', Canon.setElement m r c v = .ok m' ∧
      m'.numRows = m.numRows ∧ m'.numCols = m.numCols ∧
      (dictKeys m'.data).Nodup ∧
      ∀ p : Coord, dictLookup m'.data p =
        if p = (r, c) then (if v = 0 then none else some v) else dictLookup m.data p := by
  rw [Canon.setElement_eq_ok m r c v h]
  refine ⟨_, rfl, rfl, rfl, ?_, ?_⟩
  · by_cases hv : v = 0
    · simp only [if_pos hv]
      exact nodup_keys_erase hnd
    · simp only [if_neg hv]
      exact nodup_keys_insert hnd
  · intro p
    by_cases hp : p = (r, c)
    · subst hp
      by_cases hv : v = 0
      · simp only [if_pos hv, if_pos rfl]
        exact dictLookup_erase_self _ _ hnd
      · simp only [if_neg hv, if_pos rfl]
        exact dictLookup_insert_self _ _ _
    · rw [if_neg hp]
      by_cases hv : v = 0
      · simp only [if_pos hv]
        exact dictLookup_erase_ne _ _ _ hp
      · simp only [if_neg hv]
        exact dictLookup_insert_ne _ _ _ _ hp

/-- Any successful `set_element` of `src/main.py` preserves the no-zero
invariant, the key-distinctness invariant, the bounds invariant, and the
declared dimensions — whatever the call's arguments. -/
theorem Canon.setElement_ok_preserves {m m' : SparseMatrix} {r c v : Int}
    (h : Canon.setElement m r c v = .ok m') :
    m'.numRows = m.numRows ∧ m'.numCols = m.numCols ∧
    (NoZeroMap m.data → NoZeroMap m'.data) ∧
    ((dictKeys m.data).Nodup → (dictKeys m'.data).Nodup) ∧
    ((∀ e ∈ m.data, InBounds m.numRows m.numCols e.1) →
      ∀ e ∈ m'.data, InBounds m.numRows m.numCols e.1) := by
  unfold Canon.setElement at h
  by_cases hb : r < 0 ∨ r ≥ m.numRows ∨ c < 0 ∨ c ≥ m.numCols
  · rw [if_pos hb] at h
    cases h
  · rw [if_neg hb] at h
    push_neg at hb
    obtain ⟨h1, h2, h3, h4⟩ := hb
    by_cases hv : v = 0
    · rw [if_pos hv] at h
      injection h with h
      subst h
      refine ⟨rfl, rfl, ?_, ?_, ?_⟩
      · exact fun hz e he => hz e (mem_of_mem_erase he)
      · exact fun hnd => nodup_keys_erase hnd
      · exact fun hball e he => hball e (mem_of_mem_erase he)
    · rw [if_neg hv] at h
      injection h with h
      subst h
      refine ⟨rfl, rfl, ?_, ?_, ?_⟩
      · intro hz e he
        rcases mem_insert_cases he with h' | h'
        · exact hz e h'
        · rw [h']
          exact hv
      · exact fun hnd => nodup_keys_insert hnd
      · intro hball e he
        rcases mem_insert_cases he with h' | h'
        · exact hball e h'
        · rw [h']
          exact ⟨h1, h2, h3, h4⟩

/-! ## Range and loop-invariant lemmas -/

theorem mem_intRange {n k : Int} : k ∈ intRange n ↔ 0 ≤ k ∧ k < n := by
  unfold intRange
  simp only [List.mem_map, List.mem_range]
  constructor
  · rintro ⟨i, hi, rfl⟩
    omega
  · rintro ⟨h1, h2⟩
    exact ⟨k.toNat, by omega, by omega⟩


theorem intRange_nodup (n : Int) : (intRange n).Nodup := by
  unfold intRange
  refine List.Nodup.map ?_ (List.nodup_range _)
  intro a b hab
  have h : (a : Int) = (b : Int) := hab
  omega

theorem Canon.combineLoop_ok_preserves {a b : SparseMatrix} {f : Int → Int → Int}
    {ks : List Coord} {res res' : SparseMatrix}
    (h : Canon.combineLoop a b f ks res = .ok res') :
    res'.numRows = res.numRows ∧ res'.numCols = res.numCols ∧
    ((dictKeys res.data).Nodup → (dictKeys res'.data).Nodup) ∧
    (NoZeroMap res.data → NoZeroMap res'.data) := by
  induction ks generalizing res with
  | nil =>
    unfold Canon.combineLoop at h
    injection h with h
    subst h
    exact ⟨rfl, rfl, id, id⟩
  | cons k rest ih =>
    unfold Canon.combineLoop at h
    cases hset : Canon.setElement res k.1 k.2 (f (Canon.getElement a k.1 k.2) (Canon.getElement b k.1 k.2)) with
    | error e =>
      rw [hset] at h
      cases h
    | ok r =>
      rw [hset] at h
      obtain ⟨d1, d2, hz, hnd, _⟩ := Canon.setElement_ok_preserves hset
      obtain ⟨e1, e2, f1, f2⟩ := ih h
      exact ⟨e1.trans d1, e2.trans d2, fun hh => f1 (hnd hh), fun hh => f2 (hz hh)⟩

theorem Canon.mulInner_ok_preserves {b : SparseMatrix} {i j v : Int}
    {ks : List Int} {res res' : SparseMatrix}
    (h : Canon.mulInner b i j v ks res = .ok res') :
    res'.numRows = res.numRows ∧ res'.numCols = res.numCols ∧
    ((dictKeys res.data).Nodup → (dictKeys res'.data).Nodup) ∧
    (NoZeroMap res.data → NoZeroMap res'.data) := by
  induction ks generalizing res with
  | nil =>
    unfold Canon.mulInner at h
    injection h with h
    subst h
    exact ⟨rfl, rfl, id, id⟩
  | cons k rest ih =>
    unfold Canon.mulInner at h
    by_cases hc : dictContains b.data (j, k)
    · rw [if_pos hc] at h
      cases hset : Canon.setElement res i k (Canon.getElement res i k + v * Canon.getElement b j k) with
      | error e =>
        rw [hset] at h
        cases h
      | ok r =>
        rw [hset] at h
        obtain ⟨d1, d2, hz, hnd, _⟩ := Canon.setElement_ok_preserves hset
        obtain ⟨e1, e2, f1, f2⟩ := ih h
        exact ⟨e1.trans d1, e2.trans d2, fun hh => f1 (hnd hh), fun hh => f2 (hz hh)⟩
    · rw [if_neg hc] at h
      exact ih h

theorem Canon.mulOuter_ok_preserves {b : SparseMatrix}
    {entries : SMap} {res res' : SparseMatrix}
    (h : Canon.mulOuter b entries res = .ok res') :
    res'.numRows = res.numRows ∧ res'.numCols = res.numCols ∧
    ((dictKeys res.data).Nodup → (dictKeys res'.data).Nodup) ∧
    (NoZeroMap res.data → NoZeroMap res'.data) := by
  induction entries generalizing res with
  | nil =>
    unfold Canon.mulOuter at h
    injection h with h
    subst h
    exact ⟨rfl, rfl, id, id⟩
  | cons e rest ih =>
    unfold Canon.mulOuter at h
    cases hinner : Canon.mulInner b e.1.1 e.1.2 e.2 (intRange b.numCols) res with
    | error er =>
      rw [hinner] at h
      cases h
    | ok r =>
      rw [hinner] at h
      obtain ⟨d1, d2, hnd, hz⟩ := Canon.mulInner_ok_preserves hinner
      obtain ⟨e1, e2, f1, f2⟩ := ih h
      exact ⟨e1.trans d1, e2.trans d2, fun hh => f1 (hnd hh), fun hh => f2 (hz hh)⟩

theorem Canon.processLines_ok_preserves {lines : List String} {m m' : SparseMatrix}
    (h : Canon.processLines lines m = .ok m') :
    m'.numRows = m.numRows ∧ m'.numCols = m.numCols ∧
    ((dictKeys m.data).Nodup → (dictKeys m'.data).Nodup) ∧
    (NoZeroMap m.data → NoZeroMap m'.data) ∧
    ((∀ e ∈ m.data, InBounds m.numRows m.numCols e.1) →
      ∀ e ∈ m'.data, InBounds m.numRows m.numCols e.1) := by
  induction lines generalizing m with
  | nil =>
    unfold Canon.processLines at h
    injection h with h
    subst h
    exact ⟨rfl, rfl, id, id, id⟩
  | cons line rest ih =>
    unfold Canon.processLines at h
    by_cases hblank : (pyStrip line).data = []
    · rw [if_pos hblank] at h
      exact ih h
    · rw [if_neg hblank] at h
      cases htrip : parseTriple (pyStrip line).data with
      | error e =>
        rw [htrip] at h
        cases h
      | ok rcv =>
        obtain ⟨r, c, v⟩ := rcv
        rw [htrip] at h
        have h2 : (match Canon.setElement m r c v with
          | .error e => (.error e : Except PyError SparseMatrix)
          | .ok m1 => Canon.processLines rest m1) = .ok m' := h
        cases hset : Canon.setElement m r c v with
        | error e =>
          rw [hset] at h2
          cases h2
        | ok m1 =>
          rw [hset] at h2
          obtain ⟨d1, d2, hz, hnd, hbnd⟩ := Canon.setElement_ok_preserves hset
          obtain ⟨e1, e2, f1, f2, f3⟩ := ih h2
          refine ⟨e1.trans d1, e2.trans d2, fun hh => f1 (hnd hh), fun hh => f2 (hz hh), ?_⟩
          intro hball
          have hb1 : ∀ e ∈ m1.data, InBounds m1.numRows m1.numCols e.1 := by
            rw [d1, d2]
            exact hbnd hball
          have := f3 hb1
          rw [e1.trans d1, e2.trans d2] at *
          intro e he
          have h' := this e he
          rw [d1, d2] at h'
          exact h'

/-- Under the no-zero invariant, the lookup is determined by the value
function: absent exactly at value `0`, else storing that value. -/
theorem dictLookup_char {m : SparseMatrix} (hz : NoZeroMap m.data) (p : Coord) :
    dictLookup m.data p = if valAt m p = 0 then none else some (valAt m p) := by
  cases hl : dictLookup m.data p with
  | none =>
    have : valAt m p = 0 := by
      unfold valAt
      rw [hl]
      rfl
    rw [if_pos this]
  | some w =>
    have hv : valAt m p = w := by
      unfold valAt
      rw [hl]
      rfl
    rw [hv, if_neg (hz _ (mem_of_dictLookup_some hl))]

/-- Correctness of the inner accumulation loop of `src/main.py`'s
`multiply`: processing the column list `ks` for the left-operand entry
`(i, j) -> v` adds `v * b.get(j, k)` to the result value at `(i, k)` for
exactly the `k ∈ ks` (and errors never occur when `i` and `ks` are in
the result's bounds). -/
theorem Canon.mulInner_spec (b : SparseMatrix) (i j v : Int) (ks : List Int)
    (hksnd : ks.Nodup) :
    ∀ res : SparseMatrix, 0 ≤ i → i < res.numRows →
      (∀ k ∈ ks, 0 ≤ k ∧ k < res.numCols) →
      (dictKeys res.data).Nodup →
      ∃ r, Canon.mulInner b i j v ks res = .ok r ∧
        r.numRows = res.numRows ∧ r.numCols = res.numCols ∧
        (dictKeys r.data).Nodup ∧
        ∀ p : Coord, valAt r p =
          valAt res p + (if p.1 = i ∧ p.2 ∈ ks then v * Canon.getElement b j p.2 else 0) := by
  induction ks with
  | nil =>
    intro res _ _ _ hnd
    refine ⟨res, rfl, rfl, rfl, hnd, ?_⟩
    intro p
    simp
  | cons k rest ih =>
    intro res hi0 hi1 hks hnd
    have hk := hks k (List.mem_cons_self k rest)
    have hksnd' : rest.Nodup := hksnd.of_cons
    have hknotin : k ∉ rest := (List.nodup_cons.1 hksnd).1
    unfold Canon.mulInner
    by_cases hc : dictContains b.data (j, k)
    · rw [if_pos hc]
      obtain ⟨res1, hseteq, hd1, hd2, hnd1, hlk⟩ :=
        Canon.setElement_lookup res i k
          (Canon.getElement res i k + v * Canon.getElement b j k)
          ⟨hi0, hi1, hk.1, hk.2⟩ hnd
      rw [hseteq]
      have hv1 : ∀ p : Coord, valAt res1 p =
          if p = (i, k) then Canon.getElement res i k + v * Canon.getElement b j k
          else valAt res p := by
        intro p
        unfold valAt
        rw [hlk p]
        by_cases hp : p = (i, k)
        · rw [if_pos hp, if_pos hp]
          by_cases hw : Canon.getElement res i k + v * Canon.getElement b j k = 0
          · rw [if_pos hw, hw]
            rfl
          · rw [if_neg hw]
            rfl
        · rw [if_neg hp, if_neg hp]
      obtain ⟨r, hreq, hr1, hr2, hrnd, hrval⟩ :=
        ih hksnd' res1 hi0 (hd1 ▸ hi1)
          (fun k' hk' => hd2 ▸ hks k' (List.mem_cons_of_mem k hk')) hnd1
      refine ⟨r, hreq, hr1.trans hd1, hr2.trans hd2, hrnd, ?_⟩
      intro p
      rw [hrval p, hv1 p]
      by_cases hp : p = (i, k)
      · subst hp
        rw [if_pos rfl]
        rw [if_neg (fun hmem => hknotin hmem.2)]
        rw [if_pos ⟨rfl, List.mem_cons_self k rest⟩]
        unfold Canon.getElement valAt
        ring
      · rw [if_neg hp]
        by_cases hp1 : p.1 = i
        · by_cases hp2 : p.2 ∈ rest
          · rw [if_pos ⟨hp1, hp2⟩, if_pos ⟨hp1, List.mem_cons_of_mem k hp2⟩]
          · rw [if_neg (fun hmem => hp2 hmem.2)]
            have hpk : p.2 ≠ k := by
              intro hh
              exact hp (Prod.ext hp1 hh)
            rw [if_neg (fun hmem => ?_)]
            rcases List.mem_cons.1 hmem.2 with h' | h'
            · exact hpk h'
            · exact hp2 h'
        · rw [if_neg (fun hmem => hp1 hmem.1), if_neg (fun hmem => hp1 hmem.1)]
    · rw [if_neg hc]
      have hb0 : Canon.getElement b j k = 0 := by
        unfold Canon.getElement
        unfold dictContains at hc
        cases hl : dictLookup b.data (j, k) with
        | none => rfl
        | some w =>
          rw [hl] at hc
          simp at hc
      obtain ⟨r, hreq, hr1, hr2, hrnd, hrval⟩ :=
        ih hksnd' res hi0 hi1 (fun k' hk' => hks k' (List.mem_cons_of_mem k hk')) hnd
      refine ⟨r, hreq, hr1, hr2, hrnd, ?_⟩
      intro p
      rw [hrval p]
      by_cases hp1 : p.1 = i
      · by_cases hp2 : p.2 ∈ rest
        · rw [if_pos ⟨hp1, hp2⟩, if_pos ⟨hp1, List.mem_cons_of_mem k hp2⟩]
        · by_cases hpk : p.2 = k
          · rw [if_neg (fun hmem => hp2 hmem.2)]
            rw [if_pos ⟨hp1, by rw [hpk]; exact List.mem_cons_self k rest⟩]
            rw [hpk, hb0]
            ring
          · rw [if_neg (fun hmem => hp2 hmem.2)]
            rw [if_neg (fun hmem => ?_)]
            rcases List.mem_cons.1 hmem.2 with h' | h'
            · exact hpk h'
            · exact hp2 h'
      · rw [if_neg (fun hmem => hp1 hmem.1), if_neg (fun hmem => hp1 hmem.1)]

/-- Coordinates whose column lies outside `[0, numCols)` are absent from
a bounds-respecting entry map. -/
theorem dictLookup_none_of_col_out {b : SparseMatrix}
    (hb : ∀ e ∈ b.data, InBounds b.numRows b.numCols e.1)
    {j k : Int} (hk : ¬ (0 ≤ k ∧ k < b.numCols)) :
    dictLookup b.data (j, k) = none := by
  cases hl : dictLookup b.data (j, k) with
  | none => rfl
  | some w =>
    have hmem := hb _ (mem_of_dictLookup_some hl)
    exact absurd ⟨hmem.2.2.1, hmem.2.2.2⟩ hk

/-- Coordinates whose row lies outside `[0, numRows)` are absent from a
bounds-respecting entry map. -/
theorem dictLookup_none_of_row_out {a : SparseMatrix}
    (ha : ∀ e ∈ a.data, InBounds a.numRows a.numCols e.1)
    {i j : Int} (hi : ¬ (0 ≤ i ∧ i < a.numRows)) :
    dictLookup a.data (i, j) = none := by
  cases hl : dictLookup a.data (i, j) with
  | none => rfl
  | some w =>
    have hmem := ha _ (mem_of_dictLookup_some hl)
    exact absurd ⟨hmem.1, hmem.2.1⟩ hi

/-- Correctness of the outer loop of `src/main.py`'s `multiply`:
processing the left operand's entry list adds `contrib` to every result
value, never raising when the entries' rows fit the result's rows and
the right operand respects its bounds. -/
theorem Canon.mulOuter_spec (b : SparseMatrix)
    (hb : ∀ e ∈ b.data, InBounds b.numRows b.numCols e.1) :
    ∀ (entries : SMap) (res : SparseMatrix),
      (∀ e ∈ entries, 0 ≤ e.1.1 ∧ e.1.1 < res.numRows) →
      res.numCols = b.numCols →
      (dictKeys res.data).Nodup →
      ∃ r, Canon.mulOuter b entries res = .ok r ∧
        r.numRows = res.numRows ∧ r.numCols = res.numCols ∧
        (dictKeys r.data).Nodup ∧
        ∀ p : Coord, valAt r p = valAt res p + contrib entries b.data p.1 p.2 := by
  intro entries
  induction entries with
  | nil =>
    intro res _ _ hnd
    refine ⟨res, rfl, rfl, rfl, hnd, ?_⟩
    intro p
    simp [contrib]
  | cons e rest ih =>
    intro res hrows hcols hnd
    have he := hrows e (List.mem_cons_self e rest)
    obtain ⟨r1, hinner, hd1, hd2, hnd1, hval1⟩ :=
      Canon.mulInner_spec b e.1.1 e.1.2 e.2 (intRange b.numCols) (intRange_nodup _)
        res he.1 he.2
        (fun k hk => by
          have := mem_intRange.1 hk
          exact ⟨this.1, hcols ▸ this.2⟩)
        hnd
    unfold Canon.mulOuter
    rw [hinner]
    obtain ⟨r, hreq, hr1, hr2, hrnd, hrval⟩ :=
      ih r1 (fun e' he' => hd1 ▸ hrows e' (List.mem_cons_of_mem e he'))
        (hd2.trans hcols) hnd1
    refine ⟨r, hreq, hr1.trans hd1, hr2.trans hd2, hrnd, ?_⟩
    intro p
    rw [hrval p, hval1 p]
    have hcontribcons : contrib (e :: rest) b.data p.1 p.2 =
        (if e.1.1 = p.1 then e.2 * ((dictLookup b.data (e.1.2, p.2)).getD 0) else 0) +
          contrib rest b.data p.1 p.2 := by
      unfold contrib
      rw [List.map_cons, List.sum_cons]
    rw [hcontribcons]
    by_cases hp1 : e.1.1 = p.1
    · rw [if_pos hp1]
      by_cases hin : p.2 ∈ intRange b.numCols
      · rw [if_pos ⟨hp1.symm, hin⟩]
        unfold Canon.getElement
        ring
      · rw [if_neg (fun hmem => hin hmem.2)]
        rw [dictLookup_none_of_col_out hb (fun hh => hin (mem_intRange.2 hh))]
        simp only [Option.getD_none, mul_zero]
        ring
    · rw [if_neg hp1, if_neg (fun hmem => hp1 hmem.1.symm)]
      ring

/-- Sums over a duplicate-free index list of two functions agreeing away
from `j0` differ exactly by the difference of the `j0` terms. -/
theorem sum_map_congr_except (l : List Int) (f g : Int → Int) (j0 : Int)
    (hnd : l.Nodup) (hagree : ∀ j ∈ l, j ≠ j0 → f j = g j) :
    (l.map f).sum = (l.map g).sum + (if j0 ∈ l then f j0 - g j0 else 0) := by
  induction l with
  | nil => simp
  | cons x rest ih =>
    have hx : x ∉ rest := (List.nodup_cons.1 hnd).1
    rw [List.map_cons, List.map_cons, List.sum_cons, List.sum_cons]
    by_cases hxj : x = j0
    · subst hxj
      rw [if_pos (List.mem_cons_self x rest)]
      have hrest : (rest.map f).sum = (rest.map g).sum := by
        have := ih (List.nodup_cons.1 hnd).2
          (fun j hj hne => hagree j (List.mem_cons_of_mem x hj) hne)
        rw [this, if_neg hx]
        ring
      rw [hrest]
      ring
    · have hfx : f x = g x := hagree x (List.mem_cons_self x rest) hxj
      have := ih (List.nodup_cons.1 hnd).2
        (fun j hj hne => hagree j (List.mem_cons_of_mem x hj) hne)
      rw [this, hfx]
      by_cases hj0 : j0 ∈ rest
      · rw [if_pos hj0, if_pos (List.mem_cons_of_mem x hj0)]
        ring
      · rw [if_neg hj0]
        rw [if_neg (fun hmem => ?_)]
        · ring
        · rcases List.mem_cons.1 hmem with h' | h'
          · exact hxj h'.symm
          · exact hj0 h'

/-- For a duplicate-free, column-bounded entry list `E`, the accumulated
contribution at `(i, k)` equals the standard matrix-product sum over the
full column range. -/
theorem contrib_eq_prodSum (B : SMap) (cols : Int) :
    ∀ E : SMap, (dictKeys E).Nodup →
      (∀ e ∈ E, 0 ≤ e.1.2 ∧ e.1.2 < cols) →
      ∀ i k, contrib E B i k = prodSum cols E B i k := by
  intro E
  induction E with
  | nil =>
    intro _ _ i k
    simp [contrib, prodSum, dictLookup]
  | cons e rest ih =>
    intro hnd hbnd i k
    have hnd' : (dictKeys rest).Nodup := by
      simp only [dictKeys, List.map_cons, List.nodup_cons] at hnd
      simpa [dictKeys] using hnd.2
    have hknotin : e.1 ∉ dictKeys rest := by
      simp only [dictKeys, List.map_cons, List.nodup_cons] at hnd
      simpa [dictKeys] using hnd.1
    have hcons : contrib (e :: rest) B i k =
        (if e.1.1 = i then e.2 * ((dictLookup B (e.1.2, k)).getD 0) else 0) +
          contrib rest B i k := by
      unfold contrib
      rw [List.map_cons, List.sum_cons]
    rw [hcons, ih hnd' (fun e' he' => hbnd e' (List.mem_cons_of_mem e he')) i k]
    unfold prodSum
    have hlk : ∀ j : Int, dictLookup (e :: rest) (i, j) =
        if e.1 = (i, j) then some e.2 else dictLookup rest (i, j) := by
      intro j
      rfl
    by_cases hi0 : e.1.1 = i
    · have hsum := sum_map_congr_except (intRange cols)
        (fun j => ((dictLookup (e :: rest) (i, j)).getD 0) * ((dictLookup B (j, k)).getD 0))
        (fun j => ((dictLookup rest (i, j)).getD 0) * ((dictLookup B (j, k)).getD 0))
        e.1.2 (intRange_nodup cols)
        (fun j _ hne => by
          beta_reduce
          rw [hlk j, if_neg (fun hh => hne (by rw [hh]))]
          )
      rw [hsum]
      beta_reduce
      rw [if_pos (mem_intRange.2 (hbnd e (List.mem_cons_self e rest)))]
      have hf : ((dictLookup (e :: rest) (i, e.1.2)).getD 0) = e.2 := by
        rw [hlk e.1.2, if_pos]
        · rfl
        · rw [← hi0]
      have hg : ((dictLookup rest (i, e.1.2)).getD 0) = 0 := by
        rw [show ((i : Int), e.1.2) = e.1 from by rw [← hi0]]
        rw [dictLookup_eq_none_of_not_mem hknotin]
        rfl
      rw [hf, hg, if_pos hi0]
      ring
    · have hsum := sum_map_congr_except (intRange cols)
        (fun j => ((dictLookup (e :: rest) (i, j)).getD 0) * ((dictLookup B (j, k)).getD 0))
        (fun j => ((dictLookup rest (i, j)).getD 0) * ((dictLookup B (j, k)).getD 0))
        e.1.2 (intRange_nodup cols)
        (fun j _ hne => by
          beta_reduce
          rw [hlk j, if_neg (fun hh => hne (by rw [hh]))]
          )
      rw [hsum]
      beta_reduce
      have hfg : ((dictLookup (e :: rest) (i, e.1.2)).getD 0) =
          ((dictLookup rest (i, e.1.2)).getD 0) := by
        rw [hlk e.1.2, if_neg (fun hh => hi0 (by rw [hh]))]
      rw [hfg, if_neg hi0]
      simp

/-- Full characterization of `src/main.py`'s `multiply` on well-formed
operands with matching inner dimensions: it succeeds, the result has
dimensions `a.numRows × b.numCols`, satisfies the dictionary invariants,
its value at every coordinate is the matrix-product sum, and its entry
map stores exactly the coordinates with non-zero sum. -/
theorem Canon.multiply_spec (a b : SparseMatrix) (ha : WF a) (hb : WF b)
    (hdim : a.numCols = b.numRows) :
    ∃ r, Canon.multiply a b = .ok r ∧
      r.numRows = a.numRows ∧ r.numCols = b.numCols ∧
      (dictKeys r.data).Nodup ∧ NoZeroMap r.data ∧
      (∀ p : Coord, valAt r p = prodSum a.numCols a.data b.data p.1 p.2) ∧
      ∀ p : Coord, dictLookup r.data p =
        if prodSum a.numCols a.data b.data p.1 p.2 = 0 then none
        else some (prodSum a.numCols a.data b.data p.1 p.2) := by
  obtain ⟨r, houter, hd1, hd2, hnd, hval⟩ :=
    Canon.mulOuter_spec b hb.2.1 a.data ⟨a.numRows, b.numCols, []⟩
      (fun e he => ⟨(ha.2.1 e he).1, (ha.2.1 e he).2.1⟩) rfl (by simp [dictKeys])
  have hmul : Canon.multiply a b = .ok r := by
    unfold Canon.multiply
    rw [if_neg (fun h => h hdim)]
    exact houter
  have hz : NoZeroMap r.data :=
    (Canon.mulOuter_ok_preserves houter).2.2.2 (fun e he => by simp at he)
  have hvp : ∀ p : Coord, valAt r p = prodSum a.numCols a.data b.data p.1 p.2 := by
    intro p
    rw [hval p]
    have hzero : valAt ⟨a.numRows, b.numCols, []⟩ p = 0 := rfl
    rw [hzero, zero_add]
    exact contrib_eq_prodSum b.data a.numCols a.data ha.1
      (fun e he => ⟨(ha.2.1 e he).2.2.1, (ha.2.1 e he).2.2.2⟩) p.1 p.2
  refine ⟨r, hmul, hd1, hd2, hnd, hz, hvp, ?_⟩
  intro p
  rw [dictLookup_char hz p, hvp p]

/-- With duplicate-free keys, a stored entry is what lookup returns. -/
theorem dictLookup_eq_of_mem_nodup {m : SMap} (hnd : (dictKeys m).Nodup)
    {e : Coord × Int} (h : e ∈ m) : dictLookup m e.1 = some e.2 := by
  induction m with
  | nil => simp at h
  | cons e' rest ih =>
    simp only [dictKeys, List.map_cons, List.nodup_cons] at hnd
    rcases List.mem_cons.1 h with h' | h'
    · subst h'
      unfold dictLookup
      rw [if_pos rfl]
    · have hne : e'.1 ≠ e.1 := by
        intro hh
        exact hnd.1 (hh ▸ List.mem_map_of_mem Prod.fst h')
      unfold dictLookup
      rw [if_neg hne]
      exact ih hnd.2 h'

theorem Var.set_eq_ok (m : SparseMatrix) (r c v : Int)
    (h1 : r < m.numRows) (h2 : c < m.numCols) :
    Var.setElement m r c v = .ok ⟨m.numRows, m.numCols, dictInsert m.data (r, c) v⟩ := by
  unfold Var.setElement
  rw [if_neg]
  push_neg
  exact ⟨h1, h2⟩

theorem foldl_add_eq_sum (f : Int → Int) (l : List Int) :
    ∀ c : Int, l.foldl (fun acc k => acc + f k) c = c + (l.map f).sum := by
  induction l with
  | nil => intro c; simp
  | cons x rest ih =>
    intro c
    rw [List.foldl_cons, List.map_cons, List.sum_cons, ih]
    ring

/-- The variant's `sum_value` accumulation is the same matrix-product sum
the canonical implementation realizes. -/
theorem Var.mulCell_eq_prodSum (a b : SparseMatrix) (i j : Int) :
    Var.mulCell a b i j = prodSum a.numCols a.data b.data i j := by
  unfold Var.mulCell prodSum Var.getElement
  rw [foldl_add_eq_sum (fun k => ((dictLookup a.data (i, k)).getD 0) * ((dictLookup b.data (k, j)).getD 0)) (intRange a.numCols) 0]
  rw [zero_add]

/-- Correctness of the variant's inner (column) loop: it stores
`mulCell` at `(i, j)` for exactly the visited columns with non-zero sum. -/
theorem Var.mulColLoop_spec (a b : SparseMatrix) (i : Int) (js : List Int)
    (hjsnd : js.Nodup) :
    ∀ res : SparseMatrix, i < res.numRows →
      (∀ j ∈ js, j < res.numCols) →
      (dictKeys res.data).Nodup →
      ∃ r, Var.mulColLoop a b i js res = .ok r ∧
        r.numRows = res.numRows ∧ r.numCols = res.numCols ∧
        (dictKeys r.data).Nodup ∧
        ∀ p : Coord, dictLookup r.data p =
          if p.1 = i ∧ p.2 ∈ js ∧ Var.mulCell a b i p.2 ≠ 0
          then some (Var.mulCell a b i p.2)
          else dictLookup res.data p := by
  induction js with
  | nil =>
    intro res _ _ hnd
    refine ⟨res, rfl, rfl, rfl, hnd, ?_⟩
    intro p
    rw [if_neg (fun hmem => by simp at hmem)]
  | cons j rest ih =>
    intro res hi hjs hnd
    have hjsnd' : rest.Nodup := hjsnd.of_cons
    have hjnotin : j ∉ rest := (List.nodup_cons.1 hjsnd).1
    unfold Var.mulColLoop
    by_cases hs : Var.mulCell a b i j ≠ 0
    · rw [if_pos hs]
      rw [Var.set_eq_ok res i j (Var.mulCell a b i j) hi (hjs j (List.mem_cons_self j rest))]
      obtain ⟨r, hreq, hr1, hr2, hrnd, hrval⟩ :=
        ih hjsnd' ⟨res.numRows, res.numCols, dictInsert res.data (i, j) (Var.mulCell a b i j)⟩
          hi (fun j' hj' => hjs j' (List.mem_cons_of_mem j hj'))
          (nodup_keys_insert hnd)
      refine ⟨r, hreq, hr1, hr2, hrnd, ?_⟩
      intro p
      rw [hrval p]
      by_cases hp : p = (i, j)
      · subst hp
        rw [if_neg (fun hmem => hjnotin hmem.2.1)]
        rw [if_pos ⟨rfl, List.mem_cons_self j rest, hs⟩]
        exact dictLookup_insert_self res.data (i, j) (Var.mulCell a b i j)
      · have hlk1 : dictLookup (dictInsert res.data (i, j) (Var.mulCell a b i j)) p =
            dictLookup res.data p := dictLookup_insert_ne res.data (i, j) p _ hp
        by_cases hc : p.1 = i ∧ p.2 ∈ j :: rest ∧ Var.mulCell a b i p.2 ≠ 0
        · rw [if_pos hc]
          have hp2 : p.2 ∈ rest := by
            rcases List.mem_cons.1 hc.2.1 with h' | h'
            · exact absurd (Prod.ext hc.1 h') hp
            · exact h'
          rw [if_pos ⟨hc.1, hp2, hc.2.2⟩]
        · rw [if_neg hc]
          rw [if_neg (fun hmem => hc ⟨hmem.1, List.mem_cons_of_mem j hmem.2.1, hmem.2.2⟩)]
          exact hlk1
    · rw [if_neg hs]
      push_neg at hs
      obtain ⟨r, hreq, hr1, hr2, hrnd, hrval⟩ :=
        ih hjsnd' res hi (fun j' hj' => hjs j' (List.mem_cons_of_mem j hj')) hnd
      refine ⟨r, hreq, hr1, hr2, hrnd, ?_⟩
      intro p
      rw [hrval p]
      by_cases hc : p.1 = i ∧ p.2 ∈ rest ∧ Var.mulCell a b i p.2 ≠ 0
      · rw [if_pos hc, if_pos ⟨hc.1, List.mem_cons_of_mem j hc.2.1, hc.2.2⟩]
      · rw [if_neg hc]
        rw [if_neg (fun hmem => ?_)]
        rcases List.mem_cons.1 hmem.2.1 with h' | h'
        · exact hmem.2.2 (h' ▸ hs)
        · exact hc ⟨hmem.1, h', hmem.2.2⟩

/-- Correctness of the variant's outer (row) loop. -/
theorem Var.mulRowLoop_spec (a b : SparseMatrix) (is : List Int)
    (hisnd : is.Nodup) :
    ∀ res : SparseMatrix, (∀ i ∈ is, i < res.numRows) →
      res.numCols = b.numCols →
      (dictKeys res.data).Nodup →
      ∃ r, Var.mulRowLoop a b is res = .ok r ∧
        r.numRows = res.numRows ∧ r.numCols = res.numCols ∧
        (dictKeys r.data).Nodup ∧
        ∀ p : Coord, dictLookup r.data p =
          if p.1 ∈ is ∧ (0 ≤ p.2 ∧ p.2 < b.numCols) ∧ Var.mulCell a b p.1 p.2 ≠ 0
          then some (Var.mulCell a b p.1 p.2)
          else dictLookup res.data p := by
  induction is with
  | nil =>
    intro res _ _ hnd
    refine ⟨res, rfl, rfl, rfl, hnd, ?_⟩
    intro p
    rw [if_neg (fun hmem => by simp at hmem)]
  | cons i0 rest ih =>
    intro res hrows hcols hnd
    have hisnd' : rest.Nodup := hisnd.of_cons
    have hinotin : i0 ∉ rest := (List.nodup_cons.1 hisnd).1
    unfold Var.mulRowLoop
    obtain ⟨r1, hcol, hd1, hd2, hnd1, hval1⟩ :=
      Var.mulColLoop_spec a b i0 (intRange b.numCols) (intRange_nodup _)
        res (hrows i0 (List.mem_cons_self i0 rest))
        (fun j hj => hcols ▸ (mem_intRange.1 hj).2) hnd
    rw [hcol]
    obtain ⟨r, hreq, hr1, hr2, hrnd, hrval⟩ :=
      ih hisnd' r1 (fun i' hi' => hd1 ▸ hrows i' (List.mem_cons_of_mem i0 hi'))
        (hd2.trans hcols) hnd1
    refine ⟨r, hreq, hr1.trans hd1, hr2.trans hd2, hrnd, ?_⟩
    intro p
    rw [hrval p]
    by_cases houter : p.1 ∈ rest ∧ (0 ≤ p.2 ∧ p.2 < b.numCols) ∧ Var.mulCell a b p.1 p.2 ≠ 0
    · rw [if_pos houter]
      have hfull : p.1 ∈ i0 :: rest ∧ (0 ≤ p.2 ∧ p.2 < b.numCols) ∧
          Var.mulCell a b p.1 p.2 ≠ 0 :=
        ⟨List.mem_cons_of_mem i0 houter.1, houter.2.1, houter.2.2⟩
      rw [if_pos hfull]
    · rw [if_neg houter, hval1 p]
      by_cases hinner : p.1 = i0 ∧ p.2 ∈ intRange b.numCols ∧ Var.mulCell a b i0 p.2 ≠ 0
      · rw [if_pos hinner]
        have hfull : p.1 ∈ i0 :: rest ∧ (0 ≤ p.2 ∧ p.2 < b.numCols) ∧
            Var.mulCell a b p.1 p.2 ≠ 0 := by
          refine ⟨by rw [hinner.1]; exact List.mem_cons_self i0 rest,
            mem_intRange.1 hinner.2.1, ?_⟩
          rw [hinner.1]
          exact hinner.2.2
        rw [if_pos hfull]
        rw [hinner.1]
      · rw [if_neg hinner]
        have hfull : ¬(p.1 ∈ i0 :: rest ∧ (0 ≤ p.2 ∧ p.2 < b.numCols) ∧
            Var.mulCell a b p.1 p.2 ≠ 0) := by
          intro hmem
          rcases List.mem_cons.1 hmem.1 with h' | h'
          · exact hinner ⟨h', mem_intRange.2 hmem.2.1, by rw [← h']; exact hmem.2.2⟩
          · exact houter ⟨h', hmem.2.1, hmem.2.2⟩
        rw [if_neg hfull]

/-- A non-zero product sum forces both target coordinates inside the
operands' bounds (for bounds-respecting operands). -/
theorem prodSum_ne_zero_bounds {a b : SparseMatrix}
    (ha : ∀ e ∈ a.data, InBounds a.numRows a.numCols e.1)
    (hb : ∀ e ∈ b.data, InBounds b.numRows b.numCols e.1)
    {i k : Int} (h : prodSum a.numCols a.data b.data i k ≠ 0) :
    (0 ≤ i ∧ i < a.numRows) ∧ (0 ≤ k ∧ k < b.numCols) := by
  by_contra hcon
  apply h
  unfold prodSum
  apply List.sum_eq_zero
  intro x hx
  simp only [List.mem_map] at hx
  obtain ⟨j, _, rfl⟩ := hx
  by_cases hi : 0 ≤ i ∧ i < a.numRows
  · have hk : ¬ (0 ≤ k ∧ k < b.numCols) := fun hk => hcon ⟨hi, hk⟩
    rw [dictLookup_none_of_col_out hb hk]
    simp
  · rw [dictLookup_none_of_row_out ha hi]
    simp

/-- `prodSum` only depends on the operands through their lookup
functions. -/
theorem prodSum_congr {A A2 B B2 : SMap}
    (hA : ∀ p : Coord, dictLookup A p = dictLookup A2 p)
    (hB : ∀ p : Coord, dictLookup B p = dictLookup B2 p)
    (cols i k : Int) :
    prodSum cols A B i k = prodSum cols A2 B2 i k := by
  unfold prodSum
  have hfun : (fun j => ((dictLookup A (i, j)).getD 0) * ((dictLookup B (j, k)).getD 0)) =
      (fun j => ((dictLookup A2 (i, j)).getD 0) * ((dictLookup B2 (j, k)).getD 0)) := by
    funext j
    rw [hA, hB]
  rw [hfun]

/-- Full characterization of the variant's `__mul__` on well-formed
operands with matching inner dimensions: same success, dimensions,
invariants, values and entry membership as the canonical sparse
accumulation. -/
theorem Var.mul_spec (a b : SparseMatrix) (ha : WF a) (hb : WF b)
    (hdim : a.numCols = b.numRows) :
    ∃ r, Var.multiply a b = .ok r ∧
      r.numRows = a.numRows ∧ r.numCols = b.numCols ∧
      (dictKeys r.data).Nodup ∧ NoZeroMap r.data ∧
      (∀ p : Coord, valAt r p = prodSum a.numCols a.data b.data p.1 p.2) ∧
      ∀ p : Coord, dictLookup r.data p =
        if prodSum a.numCols a.data b.data p.1 p.2 = 0 then none
        else some (prodSum a.numCols a.data b.data p.1 p.2) := by
  obtain ⟨r, hrow, hd1, hd2, hnd, hval⟩ :=
    Var.mulRowLoop_spec a b (intRange a.numRows) (intRange_nodup _)
      ⟨a.numRows, b.numCols, []⟩
      (fun i hi => (mem_intRange.1 hi).2) rfl (by simp [dictKeys])
  have hmul : Var.multiply a b = .ok r := by
    unfold Var.multiply
    rw [if_neg (fun h => h hdim)]
    exact hrow
  have hchar : ∀ p : Coord, dictLookup r.data p =
      if prodSum a.numCols a.data b.data p.1 p.2 = 0 then none
      else some (prodSum a.numCols a.data b.data p.1 p.2) := by
    intro p
    rw [hval p]
    by_cases hz : prodSum a.numCols a.data b.data p.1 p.2 = 0
    · rw [if_pos hz]
      rw [if_neg (fun hmem => hmem.2.2 (by rw [Var.mulCell_eq_prodSum]; exact hz))]
      rfl
    · rw [if_neg hz]
      have hbnds := prodSum_ne_zero_bounds ha.2.1 hb.2.1 hz
      rw [if_pos ⟨mem_intRange.2 hbnds.1, hbnds.2, by rw [Var.mulCell_eq_prodSum]; exact hz⟩]
      rw [Var.mulCell_eq_prodSum]
  have hzmap : NoZeroMap r.data := by
    intro e he
    have hlk := dictLookup_eq_of_mem_nodup hnd he
    rw [hchar e.1] at hlk
    by_cases hz : prodSum a.numCols a.data b.data e.1.1 e.1.2 = 0
    · rw [if_pos hz] at hlk
      cases hlk
    · rw [if_neg hz] at hlk
      injection hlk with hlk
      rw [hlk] at hz
      exact hz
  refine ⟨r, hmul, hd1, hd2, hnd, hzmap, ?_, hchar⟩
  intro p
  unfold valAt
  rw [hchar p]
  by_cases hz : prodSum a.numCols a.data b.data p.1 p.2 = 0
  · rw [if_pos hz, hz]
    rfl
  · rw [if_neg hz]
    rfl

theorem mem_unionKeys {a b : SMap} {k : Coord} (h : k ∈ Canon.unionKeys a b) :
    k ∈ dictKeys a ∨ k ∈ dictKeys b := by
  unfold Canon.unionKeys at h
  rcases List.mem_append.1 h with h | h
  · exact Or.inl h
  · exact Or.inr (List.mem_of_mem_filter h)

/-- Subtracting a matrix from itself: every union key receives the value
`0`, so the zero-suppressing setter keeps the fresh result literally
empty. -/
theorem Canon.combineLoop_self_zero (a : SparseMatrix) (ks : List Coord)
    (hks : ∀ k ∈ ks, InBounds a.numRows a.numCols k) :
    Canon.combineLoop a a (fun x y => x - y) ks ⟨a.numRows, a.numCols, []⟩ =
      .ok ⟨a.numRows, a.numCols, []⟩ := by
  induction ks with
  | nil => rfl
  | cons k rest ih =>
    unfold Canon.combineLoop
    have hset : Canon.setElement ⟨a.numRows, a.numCols, []⟩ k.1 k.2
        ((fun x y => x - y) (Canon.getElement a k.1 k.2) (Canon.getElement a k.1 k.2)) =
        .ok ⟨a.numRows, a.numCols, []⟩ := by
      beta_reduce
      rw [Canon.setElement_eq_ok ⟨a.numRows, a.numCols, []⟩ k.1 k.2 _
        (hks k (List.mem_cons_self k rest))]
      rw [if_pos (sub_self (Canon.getElement a k.1 k.2))]
      rfl
    rw [hset]
    exact ih (fun k' hk' => hks k' (List.mem_cons_of_mem k hk'))

theorem Canon.subtract_self (a : SparseMatrix)
    (hbnd : ∀ e ∈ a.data, InBounds a.numRows a.numCols e.1) :
    Canon.subtract a a = .ok ⟨a.numRows, a.numCols, []⟩ := by
  unfold Canon.subtract
  rw [if_neg (fun hor => by rcases hor with h | h <;> exact h rfl)]
  apply Canon.combineLoop_self_zero
  intro k hk
  have hmem : k ∈ dictKeys a.data := by
    rcases mem_unionKeys hk with h | h <;> exact h
  obtain ⟨v, hv⟩ := exists_val_of_mem_keys hmem
  exact hbnd (k, v) hv

/-! ## Canonical load lemmas -/

theorem Canon.loadBody_ok_inv {lines : List String} {m : SparseMatrix}
    (h : Canon.loadBody lines = .ok m) :
    2 ≤ lines.length ∧
    parseHeader (lines.getD 0 "") = .ok m.numRows ∧
    parseHeader (lines.getD 1 "") = .ok m.numCols ∧
    (dictKeys m.data).Nodup ∧ NoZeroMap m.data ∧
    (∀ e ∈ m.data, InBounds m.numRows m.numCols e.1) := by
  unfold Canon.loadBody at h
  by_cases hlen : lines.length < 2
  · rw [if_pos hlen] at h
    cases h
  · rw [if_neg hlen] at h
    cases hh0 : parseHeader (lines.getD 0 "") with
    | error e =>
      rw [hh0] at h
      cases h
    | ok nr =>
      rw [hh0] at h
      cases hh1 : parseHeader (lines.getD 1 "") with
      | error e =>
        rw [hh1] at h
        cases h
      | ok nc =>
        rw [hh1] at h
        obtain ⟨d1, d2, hnd, hz, hbnd⟩ := Canon.processLines_ok_preserves h
        have hnr : m.numRows = nr := d1
        have hnc : m.numCols = nc := d2
        refine ⟨by omega, ?_, ?_, ?_, ?_, ?_⟩
        · rw [hnr]
        · rw [hnc]
        · exact hnd (by simp [dictKeys])
        · exact hz (fun e he => by simp at he)
        · rw [hnr, hnc]
          exact hbnd (fun e he => by simp at he)

theorem Canon.loadFromText_ok_inv {lines : List String} {m : SparseMatrix}
    (h : Canon.loadFromText lines = .ok m) :
    2 ≤ lines.length ∧
    parseHeader (lines.getD 0 "") = .ok m.numRows ∧
    parseHeader (lines.getD 1 "") = .ok m.numCols ∧
    (dictKeys m.data).Nodup ∧ NoZeroMap m.data ∧
    (∀ e ∈ m.data, InBounds m.numRows m.numCols e.1) := by
  unfold Canon.loadFromText at h
  cases hb : Canon.loadBody lines with
  | error e =>
    rw [hb] at h
    cases h
  | ok m0 =>
    rw [hb] at h
    injection h with h
    subst h
    exact Canon.loadBody_ok_inv hb

theorem Canon.loadFromText_error_shape {lines : List String} {e : PyError}
    (h : Canon.loadFromText lines = .error e) : ∃ e0, e = .fileError e0 := by
  unfold Canon.loadFromText at h
  cases hb : Canon.loadBody lines with
  | error e0 =>
    rw [hb] at h
    injection h with h
    exact ⟨e0, h.symm⟩
  | ok m0 =>
    rw [hb] at h
    cases h

theorem Canon.loadFromText_short {lines : List String} (h : lines.length < 2) :
    Canon.loadFromText lines = .error (.fileError .wrongFormat) := by
  unfold Canon.loadFromText Canon.loadBody
  rw [if_pos h]

theorem Canon.loadFromText_header0_error {lines : List String} {e : PyError}
    (hlen : ¬ lines.length < 2) (h : parseHeader (lines.getD 0 "") = .error e) :
    Canon.loadFromText lines = .error (.fileError e) := by
  unfold Canon.loadFromText Canon.loadBody
  rw [if_neg hlen, h]

theorem Canon.loadFromText_header1_error {lines : List String} {nr : Int} {e : PyError}
    (hlen : ¬ lines.length < 2) (h0 : parseHeader (lines.getD 0 "") = .ok nr)
    (h : parseHeader (lines.getD 1 "") = .error e) :
    Canon.loadFromText lines = .error (.fileError e) := by
  unfold Canon.loadFromText Canon.loadBody
  rw [if_neg hlen, h0, h]

/-! ## Variant load lemmas -/

theorem le_foldl_max (f : Coord → Int) (ks : List Coord) :
    ∀ a : Int, a ≤ ks.foldl (fun acc p => max acc (f p + 1)) a := by
  induction ks with
  | nil => intro a; exact le_refl a
  | cons k rest ih =>
    intro a
    calc a ≤ max a (f k + 1) := le_max_left _ _
    _ ≤ rest.foldl (fun acc p => max acc (f p + 1)) (max a (f k + 1)) := ih _

theorem mem_le_foldl_max (f : Coord → Int) (ks : List Coord) :
    ∀ (a : Int) (p : Coord), p ∈ ks → f p + 1 ≤ ks.foldl (fun acc q => max acc (f q + 1)) a := by
  induction ks with
  | nil => intro a p hp; simp at hp
  | cons k rest ih =>
    intro a p hp
    rcases List.mem_cons.1 hp with h' | h'
    · subst h'
      calc f p + 1 ≤ max a (f p + 1) := le_max_right _ _
      _ ≤ rest.foldl (fun acc q => max acc (f q + 1)) (max a (f p + 1)) := le_foldl_max f rest _
    · exact ih _ p h'

theorem inferBound_mem_lt {f : Coord → Int} {ks : List Coord} {p : Coord}
    (hp : p ∈ ks) : f p < inferBound f ks := by
  have := mem_le_foldl_max f ks 0 p hp
  unfold inferBound
  omega

theorem inferBound_append (f : Coord → Int) (ks : List Coord) (k : Coord) :
    inferBound f (ks ++ [k]) = max (inferBound f ks) (f k + 1) := by
  unfold inferBound
  rw [List.foldl_append]
  rfl

theorem keys_insert_of_mem {m : SMap} {k : Coord} {v : Int}
    (h : k ∈ dictKeys m) : dictKeys (dictInsert m k v) = dictKeys m := by
  induction m with
  | nil => simp [dictKeys] at h
  | cons e rest ih =>
    by_cases he : e.1 = k
    · have hins : dictInsert (e :: rest) k v = (k, v) :: rest := by
        simp [dictInsert, he]
      rw [hins]
      simp only [dictKeys, List.map_cons]
      rw [he]
    · have hins : dictInsert (e :: rest) k v = e :: dictInsert rest k v := by
        simp [dictInsert, he]
      rw [hins]
      simp only [dictKeys, List.map_cons]
      have hmem : k ∈ dictKeys rest := by
        simp only [dictKeys, List.map_cons, List.mem_cons] at h
        rcases h with h | h
        · exact absurd h.symm he
        · simpa [dictKeys] using h
      rw [show List.map Prod.fst (dictInsert rest k v) = List.map Prod.fst rest from ih hmem]

theorem keys_insert_of_not_mem {m : SMap} {k : Coord} {v : Int}
    (h : k ∉ dictKeys m) : dictKeys (dictInsert m k v) = dictKeys m ++ [k] := by
  induction m with
  | nil => simp [dictInsert, dictKeys]
  | cons e rest ih =>
    simp only [dictKeys, List.map_cons, List.mem_cons] at h
    push_neg at h
    have hins : dictInsert (e :: rest) k v = e :: dictInsert rest k v := by
      simp [dictInsert, Ne.symm h.1]
    rw [hins]
    simp only [dictKeys, List.map_cons]
    rw [show List.map Prod.fst (dictInsert rest k v) = List.map Prod.fst rest ++ [k] from
      ih (by simpa [dictKeys] using h.2)]
    rfl

/-- Invariant of the variant's load loop: the running dimensions are the
inferred bounds of the keys stored so far, and keys remain
duplicate-free; every error is the `ValueError` wrapper around a
`parse_line` failure. -/
theorem Var.loadLoop_spec :
    ∀ (lines : List String) (nr nc : Int) (elems : SMap),
      nr = inferBound (fun p => p.1) (dictKeys elems) →
      nc = inferBound (fun p => p.2) (dictKeys elems) →
      (dictKeys elems).Nodup →
      (∀ e : PyError, Var.loadLoop lines nr nc elems = .error e → ∃ e0, e = .formatWrap e0) ∧
      ∀ out : Int × Int × SMap, Var.loadLoop lines nr nc elems = .ok out →
        out.1 = inferBound (fun p => p.1) (dictKeys out.2.2) ∧
        out.2.1 = inferBound (fun p => p.2) (dictKeys out.2.2) ∧
        (dictKeys out.2.2).Nodup := by
  intro lines
  induction lines with
  | nil =>
    intro nr nc elems hnr hnc hnd
    constructor
    · intro e he
      cases he
    · intro out hout
      injection hout with hout
      subst hout
      exact ⟨hnr, hnc, hnd⟩
  | cons line rest ih =>
    intro nr nc elems hnr hnc hnd
    unfold Var.loadLoop
    by_cases hblank : (pyStrip line).data = []
    · rw [if_pos hblank]
      exact ih nr nc elems hnr hnc hnd
    · rw [if_neg hblank]
      cases htrip : parseTriple (pyStrip line).data with
      | error e0 =>
        constructor
        · intro e he
          injection he with he
          exact ⟨e0, he.symm⟩
        · intro out hout
          cases hout
      | ok rcv =>
        obtain ⟨r, c, v⟩ := rcv
        have hstep := ih (max nr (r + 1)) (max nc (c + 1)) (dictInsert elems (r, c) v)
        by_cases hmem : (r, c) ∈ dictKeys elems
        · have hkeys : dictKeys (dictInsert elems (r, c) v) = dictKeys elems :=
            keys_insert_of_mem hmem
          have hr1 : (r : Int) + 1 ≤ nr := by
            rw [hnr]
            exact (mem_le_foldl_max (fun p => p.1) (dictKeys elems) 0 (r, c) hmem)
          have hc1 : (c : Int) + 1 ≤ nc := by
            rw [hnc]
            exact (mem_le_foldl_max (fun p => p.2) (dictKeys elems) 0 (r, c) hmem)
          exact hstep (by rw [hkeys]; omega) (by rw [hkeys]; omega)
            (by rw [hkeys]; exact hnd)
        · have hkeys : dictKeys (dictInsert elems (r, c) v) = dictKeys elems ++ [(r, c)] :=
            keys_insert_of_not_mem hmem
          exact hstep
            (by rw [hkeys, inferBound_append, ← hnr])
            (by rw [hkeys, inferBound_append, ← hnc])
            (nodup_keys_insert hnd)

theorem Var.loadText_ok_inv {lines : List String} {m : SparseMatrix}
    (h : Var.loadFromText lines = .ok m) :
    m.numRows = inferBound (fun p => p.1) (dictKeys m.data) ∧
    m.numCols = inferBound (fun p => p.2) (dictKeys m.data) ∧
    (dictKeys m.data).Nodup ∧
    ∀ p ∈ dictKeys m.data, p.1 < m.numRows ∧ p.2 < m.numCols := by
  unfold Var.loadFromText at h
  cases hl : Var.loadLoop (lines.drop 2) 0 0 [] with
  | error e =>
    rw [hl] at h
    cases h
  | ok out =>
    rw [hl] at h
    obtain ⟨nr, nc, elems⟩ := out
    injection h with h
    subst h
    obtain ⟨hnr, hnc, hnd⟩ :=
      (Var.loadLoop_spec (lines.drop 2) 0 0 [] rfl rfl (by simp [dictKeys])).2
        (nr, nc, elems) hl
    refine ⟨hnr, hnc, hnd, ?_⟩
    intro p hp
    have hnr' : nr = inferBound (fun q => q.1) (dictKeys elems) := hnr
    have hnc' : nc = inferBound (fun q => q.2) (dictKeys elems) := hnc
    constructor
    · show p.1 < nr
      rw [hnr']
      exact inferBound_mem_lt hp
    · show p.2 < nc
      rw [hnc']
      exact inferBound_mem_lt hp

theorem Var.loadText_error_shape {lines : List String} {e : PyError}
    (h : Var.loadFromText lines = .error e) : ∃ e0, e = .formatWrap e0 := by
  unfold Var.loadFromText at h
  cases hl : Var.loadLoop (lines.drop 2) 0 0 [] with
  | error e0 =>
    rw [hl] at h
    injection h with h
    subst h
    exact (Var.loadLoop_spec (lines.drop 2) 0 0 [] rfl rfl (by simp [dictKeys])).1 e0 hl
  | ok out =>
    rw [hl] at h
    obtain ⟨nr, nc, elems⟩ := out
    cases h

/-! ## Operation-level invariants and the reachability predicate -/

theorem Canon.add_error_of_dim {a b : SparseMatrix}
    (h : a.numRows ≠ b.numRows ∨ a.numCols ≠ b.numCols) :
    Canon.add a b = .error .dimensionMismatch := by
  unfold Canon.add
  rw [if_pos h]

theorem Canon.subtract_error_of_dim {a b : SparseMatrix}
    (h : a.numRows ≠ b.numRows ∨ a.numCols ≠ b.numCols) :
    Canon.subtract a b = .error .dimensionMismatch := by
  unfold Canon.subtract
  rw [if_pos h]

theorem Canon.multiply_error_of_dim {a b : SparseMatrix}
    (h : a.numCols ≠ b.numRows) :
    Canon.multiply a b = .error .dimensionMismatch := by
  unfold Canon.multiply
  rw [if_pos h]

theorem Var.mul_error_of_dim {a b : SparseMatrix}
    (h : a.numCols ≠ b.numRows) :
    Var.multiply a b = .error .dimensionMismatch := by
  unfold Var.multiply
  rw [if_pos h]

theorem Canon.add_ok_inv {a b m : SparseMatrix} (h : Canon.add a b = .ok m) :
    NoZeroMap m.data ∧ (dictKeys m.data).Nodup := by
  unfold Canon.add at h
  by_cases hd : a.numRows ≠ b.numRows ∨ a.numCols ≠ b.numCols
  · rw [if_pos hd] at h
    cases h
  · rw [if_neg hd] at h
    obtain ⟨_, _, hnd, hz⟩ := Canon.combineLoop_ok_preserves h
    exact ⟨hz (fun e he => by simp at he), hnd (by simp [dictKeys])⟩

theorem Canon.subtract_ok_inv {a b m : SparseMatrix} (h : Canon.subtract a b = .ok m) :
    NoZeroMap m.data ∧ (dictKeys m.data).Nodup := by
  unfold Canon.subtract at h
  by_cases hd : a.numRows ≠ b.numRows ∨ a.numCols ≠ b.numCols
  · rw [if_pos hd] at h
    cases h
  · rw [if_neg hd] at h
    obtain ⟨_, _, hnd, hz⟩ := Canon.combineLoop_ok_preserves h
    exact ⟨hz (fun e he => by simp at he), hnd (by simp [dictKeys])⟩

theorem Canon.multiply_ok_inv {a b m : SparseMatrix} (h : Canon.multiply a b = .ok m) :
    NoZeroMap m.data ∧ (dictKeys m.data).Nodup := by
  unfold Canon.multiply at h
  by_cases hd : a.numCols ≠ b.numRows
  · rw [if_pos hd] at h
    cases h
  · rw [if_neg hd] at h
    obtain ⟨_, _, hnd, hz⟩ := Canon.mulOuter_ok_preserves h
    exact ⟨hz (fun e he => by simp at he), hnd (by simp [dictKeys])⟩

/-- Matrices reachable through the public operations of `src/main.py`:
construction with given dimensions, loading from a text file,
`set_element`, `add`, `subtract`, `multiply`. -/
inductive Reachable : SparseMatrix → Prop
  | construct (nr nc : Int) : Reachable ⟨nr, nc, []⟩
  | load (lines : List String) (m : SparseMatrix) :
      Canon.loadFromText lines = .ok m → Reachable m
  | set (m m' : SparseMatrix) (r c v : Int) :
      Reachable m → Canon.setElement m r c v = .ok m' → Reachable m'
  | add (a b m : SparseMatrix) :
      Reachable a → Reachable b → Canon.add a b = .ok m → Reachable m
  | sub (a b m : SparseMatrix) :
      Reachable a → Reachable b → Canon.subtract a b = .ok m → Reachable m
  | mul (a b m : SparseMatrix) :
      Reachable a → Reachable b → Canon.multiply a b = .ok m → Reachable m

/-- Every matrix reachable through the public operations of `src/main.py`
satisfies the zero-suppression invariant (and key distinctness). -/
theorem Canon.reachable_inv {m : SparseMatrix} (h : Reachable m) :
    NoZeroMap m.data ∧ (dictKeys m.data).Nodup := by
  induction h with
  | construct nr nc => exact ⟨fun e he => by simp at he, by simp [dictKeys]⟩
  | load lines m hload =>
    obtain ⟨_, _, _, hnd, hz, _⟩ := Canon.loadFromText_ok_inv hload
    exact ⟨hz, hnd⟩
  | set m m' r c v _ hset ihm =>
    obtain ⟨_, _, hz, hnd, _⟩ := Canon.setElement_ok_preserves hset
    exact ⟨hz ihm.1, hnd ihm.2⟩
  | add a b m _ _ hadd _ _ => exact Canon.add_ok_inv hadd
  | sub a b m _ _ hsub _ _ => exact Canon.subtract_ok_inv hsub
  | mul a b m _ _ hmul _ _ => exact Canon.multiply_ok_inv hmul

/-! ## Claim theorems -/

/-- C1: for every pair of matrices A (r×c) and B (c'×s), `multiply`
raises `DimensionMismatchError` (the `ValueError` of the dimension
guard) when c ≠ c'; when c = c' it returns a fresh r×s matrix whose
value at every coordinate (i,k) is the integer sum over j of
`A.get(i,j) * B.get(j,k)`, and coordinates whose sum is zero are absent
from the result's entry map. Both cited implementations (`multiply` of
`src/main.py` and `__mul__` of the variant) satisfy this. -/
theorem C1_multiply_product (a b : SparseMatrix) (i k : Int)
    (ha : WF a) (hb : WF b) :
    (a.numCols ≠ b.numRows →
      Canon.multiply a b = .error .dimensionMismatch ∧
      Var.multiply a b = .error .dimensionMismatch) ∧
    (a.numCols = b.numRows →
      (∃ r, Canon.multiply a b = .ok r ∧
        r.numRows = a.numRows ∧ r.numCols = b.numCols ∧
        Canon.getElement r i k = prodSum a.numCols a.data b.data i k ∧
        (prodSum a.numCols a.data b.data i k = 0 → dictLookup r.data (i, k) = none)) ∧
      (∃ r, Var.multiply a b = .ok r ∧
        r.numRows = a.numRows ∧ r.numCols = b.numCols ∧
        Var.getElement r i k = prodSum a.numCols a.data b.data i k ∧
        (prodSum a.numCols a.data b.data i k = 0 → dictLookup r.data (i, k) = none))) := by
  constructor
  · intro hne
    exact ⟨Canon.multiply_error_of_dim hne, Var.mul_error_of_dim hne⟩
  · intro heq
    constructor
    · obtain ⟨r, hok, h1, h2, _, _, hval, hchar⟩ := Canon.multiply_spec a b ha hb heq
      refine ⟨r, hok, h1, h2, hval (i, k), ?_⟩
      intro hz0
      rw [hchar (i, k), if_pos hz0]
    · obtain ⟨r, hok, h1, h2, _, _, hval, hchar⟩ := Var.mul_spec a b ha hb heq
      refine ⟨r, hok, h1, h2, hval (i, k), ?_⟩
      intro hz0
      rw [hchar (i, k), if_pos hz0]

/-- Witness for C1 at the spec's concrete scenario: A = [[1,2],[3,4]],
B = I₂, target cell (0,0). -/
theorem C1_multiply_product_witness :
    WF ⟨2, 2, [((0, 0), 1), ((0, 1), 2), ((1, 0), 3), ((1, 1), 4)]⟩ ∧
    WF ⟨2, 2, [((0, 0), 1), ((1, 1), 1)]⟩ ∧
    (∃ r, Canon.multiply ⟨2, 2, [((0, 0), 1), ((0, 1), 2), ((1, 0), 3), ((1, 1), 4)]⟩
        ⟨2, 2, [((0, 0), 1), ((1, 1), 1)]⟩ = .ok r ∧
      r.numRows = 2 ∧ r.numCols = 2 ∧
      Canon.getElement r 0 0 =
        prodSum 2 [((0, 0), 1), ((0, 1), 2), ((1, 0), 3), ((1, 1), 4)]
          [((0, 0), 1), ((1, 1), 1)] 0 0 ∧
      (prodSum 2 [((0, 0), 1), ((0, 1), 2), ((1, 0), 3), ((1, 1), 4)]
          [((0, 0), 1), ((1, 1), 1)] 0 0 = 0 → dictLookup r.data (0, 0) = none)) ∧
    (∃ r, Var.multiply ⟨2, 2, [((0, 0), 1), ((0, 1), 2), ((1, 0), 3), ((1, 1), 4)]⟩
        ⟨2, 2, [((0, 0), 1), ((1, 1), 1)]⟩ = .ok r ∧
      r.numRows = 2 ∧ r.numCols = 2 ∧
      Var.getElement r 0 0 =
        prodSum 2 [((0, 0), 1), ((0, 1), 2), ((1, 0), 3), ((1, 1), 4)]
          [((0, 0), 1), ((1, 1), 1)] 0 0 ∧
      (prodSum 2 [((0, 0), 1), ((0, 1), 2), ((1, 0), 3), ((1, 1), 4)]
          [((0, 0), 1), ((1, 1), 1)] 0 0 = 0 → dictLookup r.data (0, 0) = none)) := by
  refine ⟨by decide, by decide, ?_, ?_⟩
  · exact ((C1_multiply_product ⟨2, 2, [((0, 0), 1), ((0, 1), 2), ((1, 0), 3), ((1, 1), 4)]⟩
      ⟨2, 2, [((0, 0), 1), ((1, 1), 1)]⟩ 0 0 (by decide) (by decide)).2 rfl).1
  · exact ((C1_multiply_product ⟨2, 2, [((0, 0), 1), ((0, 1), 2), ((1, 0), 3), ((1, 1), 4)]⟩
      ⟨2, 2, [((0, 0), 1), ((1, 1), 1)]⟩ 0 0 (by decide) (by decide)).2 rfl).2

/-- C2 counterexample: in the variant (`src/matrix/code/src/main.py`,
one of the claim's two cited `set_element`s), setting an in-bounds
coordinate to `0` leaves the coordinate PRESENT in the entry map with a
stored zero, contradicting "the coordinate (row,col) is absent from the
underlying entry map after the set". -/
theorem C2_counterexample :
    Var.setElement ⟨1, 1, []⟩ 0 0 0 = .ok ⟨1, 1, [((0, 0), 0)]⟩ ∧
    dictLookup [(((0 : Int), (0 : Int)), (0 : Int))] (0, 0) = some 0 := by
  exact ⟨by decide, by decide⟩

/-- C2 amended: for every matrix with duplicate-free keys and in-bounds
(row,col), after `set(row,col,v)` the getter returns `v` (hence `0` when
`v = 0`) in both implementations; the coordinate is absent from the
entry map after a zero set in `src/main.py`, while the variant keeps it
stored with value `0`. -/
theorem C2_set_get (m : SparseMatrix) (row col v : Int)
    (hin : InBounds m.numRows m.numCols (row, col))
    (hnd : (dictKeys m.data).Nodup) :
    (∃ m', Canon.setElement m row col v = .ok m' ∧
      Canon.getElement m' row col = v ∧
      (v = 0 → dictLookup m'.data (row, col) = none)) ∧
    (∃ m2, Var.setElement m row col v = .ok m2 ∧
      Var.getElement m2 row col = v ∧
      (v = 0 → dictLookup m2.data (row, col) = some 0)) := by
  constructor
  · obtain ⟨m', hok, _, _, _, hlk⟩ := Canon.setElement_lookup m row col v hin hnd
    refine ⟨m', hok, ?_, ?_⟩
    · unfold Canon.getElement
      rw [hlk (row, col), if_pos rfl]
      by_cases hv : v = 0
      · rw [if_pos hv, hv]
        rfl
      · rw [if_neg hv]
        rfl
    · intro hv
      rw [hlk (row, col), if_pos rfl, if_pos hv]
  · rw [Var.set_eq_ok m row col v hin.2.1 hin.2.2.2]
    refine ⟨_, rfl, ?_, ?_⟩
    · show (dictLookup (dictInsert m.data (row, col) v) (row, col)).getD 0 = v
      rw [dictLookup_insert_self]
      rfl
    · intro hv
      subst hv
      exact dictLookup_insert_self m.data (row, col) 0

/-- Witness for C2: a 2×2 matrix, cell (0,1), value 5. -/
theorem C2_set_get_witness :
    InBounds 2 2 ((0 : Int), (1 : Int)) ∧
    (dictKeys ([] : SMap)).Nodup ∧
    ((∃ m', Canon.setElement ⟨2, 2, []⟩ 0 1 5 = .ok m' ∧
      Canon.getElement m' 0 1 = 5 ∧
      ((5 : Int) = 0 → dictLookup m'.data (0, 1) = none)) ∧
    (∃ m2, Var.setElement ⟨2, 2, []⟩ 0 1 5 = .ok m2 ∧
      Var.getElement m2 0 1 = 5 ∧
      ((5 : Int) = 0 → dictLookup m2.data (0, 1) = some 0))) :=
  ⟨by decide, by decide, C2_set_get ⟨2, 2, []⟩ 0 1 5 (by decide) (by decide)⟩

/-- C9: on operands with equal declared dimensions and equal in-bounds,
non-zero (well-formed) entry maps, the sparse accumulation of
`src/main.py` and the dense triple loop of the variant both succeed and
produce matrices with the same dimensions and the same entry map (equal
as lookup functions). -/
theorem C9_sparse_dense_equiv (a1 b1 a2 b2 : SparseMatrix) (p : Coord)
    (ha1 : WF a1) (hb1 : WF b1) (ha2 : WF a2) (hb2 : WF b2)
    (hadim : a1.numRows = a2.numRows ∧ a1.numCols = a2.numCols)
    (hbdim : b1.numRows = b2.numRows ∧ b1.numCols = b2.numCols)
    (hamap : ∀ q : Coord, dictLookup a1.data q = dictLookup a2.data q)
    (hbmap : ∀ q : Coord, dictLookup b1.data q = dictLookup b2.data q)
    (hdim : a1.numCols = b1.numRows) :
    ∃ r1 r2, Canon.multiply a1 b1 = .ok r1 ∧ Var.multiply a2 b2 = .ok r2 ∧
      r1.numRows = r2.numRows ∧ r1.numCols = r2.numCols ∧
      dictLookup r1.data p = dictLookup r2.data p := by
  obtain ⟨r1, hok1, h11, h12, _, _, _, hchar1⟩ := Canon.multiply_spec a1 b1 ha1 hb1 hdim
  have hdim2 : a2.numCols = b2.numRows := by
    rw [← hadim.2, ← hbdim.1]
    exact hdim
  obtain ⟨r2, hok2, h21, h22, _, _, _, hchar2⟩ := Var.mul_spec a2 b2 ha2 hb2 hdim2
  refine ⟨r1, r2, hok1, hok2, ?_, ?_, ?_⟩
  · rw [h11, h21, hadim.1]
  · rw [h12, h22, hbdim.2]
  · rw [hchar1 p, hchar2 p]
    rw [prodSum_congr hamap hbmap a1.numCols p.1 p.2, hadim.2]

/-- Witness for C9: both implementations on A = [[1,2],[3,4]] and B = I₂
agree at cell (0,0). -/
theorem C9_sparse_dense_equiv_witness :
    WF ⟨2, 2, [((0, 0), 1), ((0, 1), 2), ((1, 0), 3), ((1, 1), 4)]⟩ ∧
    WF ⟨2, 2, [((0, 0), 1), ((1, 1), 1)]⟩ ∧
    (∃ r1 r2,
      Canon.multiply ⟨2, 2, [((0, 0), 1), ((0, 1), 2), ((1, 0), 3), ((1, 1), 4)]⟩
        ⟨2, 2, [((0, 0), 1), ((1, 1), 1)]⟩ = .ok r1 ∧
      Var.multiply ⟨2, 2, [((0, 0), 1), ((0, 1), 2), ((1, 0), 3), ((1, 1), 4)]⟩
        ⟨2, 2, [((0, 0), 1), ((1, 1), 1)]⟩ = .ok r2 ∧
      r1.numRows = r2.numRows ∧ r1.numCols = r2.numCols ∧
      dictLookup r1.data (0, 0) = dictLookup r2.data (0, 0)) :=
  ⟨by decide, by decide,
    C9_sparse_dense_equiv
      ⟨2, 2, [((0, 0), 1), ((0, 1), 2), ((1, 0), 3), ((1, 1), 4)]⟩
      ⟨2, 2, [((0, 0), 1), ((1, 1), 1)]⟩
      ⟨2, 2, [((0, 0), 1), ((0, 1), 2), ((1, 0), 3), ((1, 1), 4)]⟩
      ⟨2, 2, [((0, 0), 1), ((1, 1), 1)]⟩
      (0, 0) (by decide) (by decide) (by decide) (by decide)
      ⟨rfl, rfl⟩ ⟨rfl, rfl⟩ (fun q => rfl) (fun q => rfl) rfl⟩

/-- C3 counterexample: in the variant (the claim's second cited
`set_element` / loader), a parsed triple with value `0` IS stored: the
load succeeds with the entry `(0,0) -> 0` present, contradicting "a
triple with value 0 appearing in parsed input results in no stored
entry" and the never-stores-zero invariant. -/
theorem C3_counterexample :
    Var.loadFromText ["rows=1", "cols=1", "(0,0,0)"] = .ok ⟨1, 1, [((0, 0), 0)]⟩ ∧
    dictLookup [(((0 : Int), (0 : Int)), (0 : Int))] (0, 0) = some 0 := by
  exact ⟨by decide, by decide⟩

/-- C3 amended: in `src/main.py` (the canonical implementation), every
matrix reachable through the public operations — construction, load from
text, `set_element`, `add`, `subtract`, `multiply` — stores no entry
with value `0`; in particular a parsed triple `(0,0,0)` leaves the
coordinate absent. The variant violates the invariant by storing zeros
(see the counterexample). -/
theorem C3_no_zero_invariant :
    (∀ m : SparseMatrix, Reachable m → NoZeroMap m.data) ∧
    (∀ m : SparseMatrix, Canon.loadFromText ["rows=1", "cols=1", "(0,0,0)"] = .ok m →
      dictLookup m.data (0, 0) = none) := by
  constructor
  · exact fun m h => (Canon.reachable_inv h).1
  · intro m h
    rw [show Canon.loadFromText ["rows=1", "cols=1", "(0,0,0)"] = .ok ⟨1, 1, []⟩ from by decide]
      at h
    injection h with h
    rw [← h]
    rfl

/-- Witness for C3: a reachable matrix holding the entry `(0,0) -> 7`
(built by construction followed by a set), whose stored value is indeed
non-zero, and the concrete zero-triple load. -/
theorem C3_no_zero_invariant_witness :
    ((((0 : Int), (0 : Int)), (7 : Int)).2 ≠ 0) ∧
    Canon.loadFromText ["rows=1", "cols=1", "(0,0,0)"] = .ok ⟨1, 1, []⟩ ∧
    dictLookup (⟨1, 1, []⟩ : SparseMatrix).data (0, 0) = none :=
  ⟨C3_no_zero_invariant.1 ⟨1, 1, [((0, 0), 7)]⟩
      (Reachable.set ⟨1, 1, []⟩ ⟨1, 1, [((0, 0), 7)]⟩ 0 0 7
        (Reachable.construct 1 1) (by decide))
      ((0, 0), 7) (by decide),
   by decide,
   C3_no_zero_invariant.2 ⟨1, 1, []⟩ (by decide)⟩

/-- C4 counterexample: the variant's `__add__`/`__sub__` (the claim's
second cited implementation) perform no dimension check at all: on a 1×1
and a 2×1 operand they both succeed, returning a max-dimension 2×1
result instead of raising `DimensionMismatchError`. -/
theorem C4_counterexample :
    Var.add ⟨1, 1, []⟩ ⟨2, 1, []⟩ = .ok ⟨2, 1, []⟩ ∧
    Var.subtract ⟨1, 1, []⟩ ⟨2, 1, []⟩ = .ok ⟨2, 1, []⟩ := by
  exact ⟨by decide, by decide⟩

/-- C4 amended: in `src/main.py`, `add` and `subtract` on matrices with
different `numRows` or different `numCols` both raise
`DimensionMismatchError` (the `ValueError` of the dimension guard) and
return no result; the pure embedding leaves both operands untouched.
The variant instead merges into a max-dimension result with no error
(see the counterexample). -/
theorem C4_add_sub_dim_mismatch (a b : SparseMatrix)
    (h : a.numRows ≠ b.numRows ∨ a.numCols ≠ b.numCols) :
    Canon.add a b = .error .dimensionMismatch ∧
    Canon.subtract a b = .error .dimensionMismatch :=
  ⟨Canon.add_error_of_dim h, Canon.subtract_error_of_dim h⟩

/-- Witness for C4 at a 1×1 vs 2×1 pair. -/
theorem C4_add_sub_dim_mismatch_witness :
    ((1 : Int) ≠ 2 ∨ (1 : Int) ≠ 1) ∧
    (Canon.add ⟨1, 1, []⟩ ⟨2, 1, []⟩ = .error .dimensionMismatch ∧
     Canon.subtract ⟨1, 1, []⟩ ⟨2, 1, []⟩ = .error .dimensionMismatch) :=
  ⟨by decide, C4_add_sub_dim_mismatch ⟨1, 1, []⟩ ⟨2, 1, []⟩ (by decide)⟩

/-- C5 counterexample: the variant's `set_element` checks only
`row >= num_rows or col >= num_cols`, so the negative index `row = -1`
on a 2×2 matrix is ACCEPTED and stored instead of raising `IndexError`,
contradicting the claim for `row < 0`. -/
theorem C5_counterexample :
    Var.setElement ⟨2, 2, []⟩ (-1) 0 1 = .ok ⟨2, 2, [((-1, 0), 1)]⟩ := by
  decide

/-- C5 amended: `src/main.py`'s `set_element` raises `IndexError` (and
in the pure embedding returns no modified matrix) for every coordinate
with `row < 0`, `row ≥ numRows`, `col < 0` or `col ≥ numCols`; the
variant raises `IndexError` only for the two upper-bound violations and
accepts negative indices (see the counterexample). In particular
`set(5,0,1)` on a 2×2 matrix raises `IndexError` in both (the witness). -/
theorem C5_set_bounds (m : SparseMatrix) (r c v : Int)
    (h : r < 0 ∨ r ≥ m.numRows ∨ c < 0 ∨ c ≥ m.numCols) :
    Canon.setElement m r c v = .error .indexError ∧
    (r ≥ m.numRows ∨ c ≥ m.numCols → Var.setElement m r c v = .error .indexError) := by
  constructor
  · apply Canon.setElement_error_of_not_inBounds
    intro hin
    obtain ⟨h1, h2, h3, h4⟩ := hin
    rcases h with h | h | h | h <;> omega
  · intro h2
    unfold Var.setElement
    rw [if_pos h2]

/-- Witness for C5 at the spec's concrete scenario: `set(5,0,1)` on a
2×2 matrix raises `IndexError` in both implementations. -/
theorem C5_set_bounds_witness :
    ((5 : Int) < 0 ∨ (5 : Int) ≥ 2 ∨ (0 : Int) < 0 ∨ (0 : Int) ≥ 2) ∧
    Canon.setElement ⟨2, 2, []⟩ 5 0 1 = .error .indexError ∧
    Var.setElement ⟨2, 2, []⟩ 5 0 1 = .error .indexError :=
  ⟨by decide,
   (C5_set_bounds ⟨2, 2, []⟩ 5 0 1 (by decide)).1,
   (C5_set_bounds ⟨2, 2, []⟩ 5 0 1 (by decide)).2 (by decide)⟩

/-- C6 counterexample: `src/main.py` never checks the text before the
`=` in the header lines — the input with first line `x=1` and second
line `y=2` (neither of which is `rows=<int>` / `cols=<int>`) loads
successfully as a 1×2 matrix instead of failing with a format error. -/
theorem C6_counterexample :
    Canon.loadFromText ["x=1", "y=2"] = .ok ⟨1, 2, []⟩ := by
  decide

/-- C6 amended: the dimensions are the `int(...)` of the field after the
first `=` of each of the first two lines (any prefix before the `=` is
accepted); a file with fewer than two lines, a first-two line without
`=` (an `IndexError` from `split('=')[1]`), or a non-integer field (a
`ValueError` from `int`) makes the load fail with the wrapped
`ValueError("Error reading file: ...")` and no matrix is produced. -/
theorem C6_header_parse (lines : List String) :
    (lines.length < 2 → Canon.loadFromText lines = .error (.fileError .wrongFormat)) ∧
    (∀ m, Canon.loadFromText lines = .ok m →
      parseHeader (lines.getD 0 "") = .ok m.numRows ∧
      parseHeader (lines.getD 1 "") = .ok m.numCols) ∧
    (∀ e, 2 ≤ lines.length → parseHeader (lines.getD 0 "") = .error e →
      Canon.loadFromText lines = .error (.fileError e)) ∧
    (∀ nr e, 2 ≤ lines.length → parseHeader (lines.getD 0 "") = .ok nr →
      parseHeader (lines.getD 1 "") = .error e →
      Canon.loadFromText lines = .error (.fileError e)) := by
  refine ⟨fun h => Canon.loadFromText_short h, fun m h => ?_,
    fun e hl h => Canon.loadFromText_header0_error (by omega) h,
    fun nr e hl h0 h => Canon.loadFromText_header1_error (by omega) h0 h⟩
  obtain ⟨_, h1, h2, _, _, _⟩ := Canon.loadFromText_ok_inv h
  exact ⟨h1, h2⟩

/-- Witness for C6: a good header pair, a missing `=`, and a
non-integer field. -/
theorem C6_header_parse_witness :
    (Canon.loadFromText ["rows=3", "cols=4"] = .ok ⟨3, 4, []⟩) ∧
    (parseHeader "rows=3" = .ok 3 ∧ parseHeader "cols=4" = .ok 4) ∧
    ((2 : Nat) ≤ 2 ∧ parseHeader "rows 3" = .error .headerIndexError ∧
      Canon.loadFromText ["rows 3", "cols=4"] = .error (.fileError .headerIndexError)) ∧
    ((2 : Nat) ≤ 2 ∧ parseHeader "cols=x" = .error .intParseError ∧
      Canon.loadFromText ["rows=3", "cols=x"] = .error (.fileError .intParseError)) :=
  ⟨by decide,
   (C6_header_parse ["rows=3", "cols=4"]).2.1 ⟨3, 4, []⟩ (by decide),
   ⟨by decide, by decide,
    (C6_header_parse ["rows 3", "cols=4"]).2.2.1 .headerIndexError (by decide) (by decide)⟩,
   ⟨by decide, by decide,
    (C6_header_parse ["rows=3", "cols=x"]).2.2.2 3 .intParseError (by decide) (by decide)
      (by decide)⟩⟩

/-- C7 counterexample: the out-of-bounds triple `(2,0,5)` under the
header `rows=1`/`cols=1` aborts the load, but the `IndexError` from
`set_element` is caught by the broad `except Exception` of
`_load_from_file` and re-raised as
`ValueError("Error reading file: ...")` — the caller sees a
`ValueError`, not an `IndexError` as the claim states. -/
theorem C7_counterexample :
    Canon.loadFromText ["rows=1", "cols=1", "(2,0,5)"] =
      .error (.fileError .indexError) ∧
    PyError.isIndexErrorClass (.fileError .indexError) = false := by
  exact ⟨by decide, rfl⟩

/-- C7 amended: an out-of-bounds triple still aborts the whole load and
the caller observes no matrix — every coordinate stored in a
successfully loaded matrix is within the header bounds — but any load
failure surfaces as the wrapping `ValueError("Error reading file: ...")`
(never as an exception of class `IndexError`). -/
theorem C7_load_bounds (lines : List String) :
    (∀ m, Canon.loadFromText lines = .ok m →
      ∀ e ∈ m.data, InBounds m.numRows m.numCols e.1) ∧
    (∀ e, Canon.loadFromText lines = .error e →
      ∃ e0, e = .fileError e0 ∧ PyError.isIndexErrorClass e = false) := by
  constructor
  · intro m h
    exact (Canon.loadFromText_ok_inv h).2.2.2.2.2
  · intro e h
    obtain ⟨e0, he⟩ := Canon.loadFromText_error_shape h
    refine ⟨e0, he, ?_⟩
    rw [he]
    rfl

/-- Witness for C7: the in-bounds load stores only in-bounds
coordinates, and the out-of-bounds load fails with the wrapper. -/
theorem C7_load_bounds_witness :
    (Canon.loadFromText ["rows=2", "cols=2", "(1,1,9)"] = .ok ⟨2, 2, [((1, 1), 9)]⟩ ∧
      (∀ e ∈ (⟨2, 2, [((1, 1), 9)]⟩ : SparseMatrix).data,
        InBounds (⟨2, 2, [((1, 1), 9)]⟩ : SparseMatrix).numRows
          (⟨2, 2, [((1, 1), 9)]⟩ : SparseMatrix).numCols e.1)) ∧
    (Canon.loadFromText ["rows=1", "cols=1", "(2,0,5)"] = .error (.fileError .indexError) ∧
      ∃ e0, (PyError.fileError .indexError) = .fileError e0 ∧
        PyError.isIndexErrorClass (.fileError .indexError) = false) :=
  ⟨⟨by decide,
    (C7_load_bounds ["rows=2", "cols=2", "(1,1,9)"]).1 ⟨2, 2, [((1, 1), 9)]⟩ (by decide)⟩,
   ⟨by decide,
    (C7_load_bounds ["rows=1", "cols=1", "(2,0,5)"]).2 (.fileError .indexError) (by decide)⟩⟩

/-- C8 counterexample: in the variant, `A.subtract(A)` does NOT yield an
empty entry map: the unchecked setter stores the value `0` at every key
of `A`, so for `A = 1×1 {(0,0): 1}` the result keeps the entry
`(0,0) -> 0`. -/
theorem C8_counterexample :
    Var.subtract ⟨1, 1, [((0, 0), 1)]⟩ ⟨1, 1, [((0, 0), 1)]⟩ =
      .ok ⟨1, 1, [((0, 0), 0)]⟩ ∧
    dictKeys [(((0 : Int), (0 : Int)), (0 : Int))] ≠ [] := by
  exact ⟨by decide, by decide⟩

/-- C8 amended: in `src/main.py`, `A.subtract(A)` on a matrix whose
stored coordinates respect its bounds returns a matrix of the same
dimensions with a literally empty entry map; the variant instead keeps
all of `A`'s keys with stored zeros (see the counterexample). -/
theorem C8_subtract_self (a : SparseMatrix)
    (hbnd : ∀ e ∈ a.data, InBounds a.numRows a.numCols e.1) :
    Canon.subtract a a = .ok ⟨a.numRows, a.numCols, []⟩ :=
  Canon.subtract_self a hbnd

/-- Witness for C8 on a 2×2 matrix with two entries. -/
theorem C8_subtract_self_witness :
    (∀ e ∈ (⟨2, 2, [((0, 0), 3), ((1, 1), -4)]⟩ : SparseMatrix).data,
      InBounds 2 2 e.1) ∧
    Canon.subtract ⟨2, 2, [((0, 0), 3), ((1, 1), -4)]⟩
      ⟨2, 2, [((0, 0), 3), ((1, 1), -4)]⟩ = .ok ⟨2, 2, []⟩ :=
  ⟨by decide, C8_subtract_self ⟨2, 2, [((0, 0), 3), ((1, 1), -4)]⟩ (by decide)⟩

/-- C10 counterexample: the variant's parser accepts negative indices —
loading the triple `(-2,0,3)` succeeds with `numRows = 0` (the running
`max(acc, row+1)` is floored at the initial `0`), which differs from
`1 + (-2) = -1`, the claim's "1 plus the maximum stored row index"; the
stored entry `(-2,0)` also lies outside `[0, numRows)`. -/
theorem C10_counterexample :
    Var.loadFromText ["rows=x", "cols=y", "(-2,0,3)"] =
      .ok ⟨0, 1, [((-2, 0), 3)]⟩ ∧
    (0 : Int) ≠ (-2) + 1 ∧ ¬ ((0 : Int) ≤ -2) := by
  exact ⟨by decide, by decide, by decide⟩

/-- C10 amended: the variant's load never raises `IndexError` regardless
of header content (every failure is the
`ValueError("Input file has wrong format: ...")` wrapper); after a
successful load, `numRows`/`numCols` equal the maximum of `idx + 1` over
the stored keys floored at `0` (so `1 +` the maximum stored index only
when that is non-negative, and `0` with no entries), and every stored
key satisfies the upper bounds `row < numRows` and `col < numCols`
(negative indices may escape the lower bounds, see the counterexample). -/
theorem C10_infer_dims (lines : List String) :
    (∀ e, Var.loadFromText lines = .error e →
      (∃ e0, e = .formatWrap e0) ∧ PyError.isIndexErrorClass e = false) ∧
    (∀ m, Var.loadFromText lines = .ok m →
      m.numRows = inferBound (fun p => p.1) (dictKeys m.data) ∧
      m.numCols = inferBound (fun p => p.2) (dictKeys m.data) ∧
      ∀ p ∈ dictKeys m.data, p.1 < m.numRows ∧ p.2 < m.numCols) := by
  constructor
  · intro e h
    obtain ⟨e0, he⟩ := Var.loadText_error_shape h
    refine ⟨⟨e0, he⟩, ?_⟩
    rw [he]
    rfl
  · intro m h
    obtain ⟨h1, h2, _, h4⟩ := Var.loadText_ok_inv h
    exact ⟨h1, h2, h4⟩

/-- Witness for C10: a successful inferred-dimension load and a failing
malformed line. -/
theorem C10_infer_dims_witness :
    (Var.loadFromText ["", "", "(0,1,5)"] = .ok ⟨1, 2, [((0, 1), 5)]⟩ ∧
      ((⟨1, 2, [((0, 1), 5)]⟩ : SparseMatrix).numRows =
        inferBound (fun p => p.1) (dictKeys [(((0 : Int), (1 : Int)), (5 : Int))]) ∧
       (⟨1, 2, [((0, 1), 5)]⟩ : SparseMatrix).numCols =
        inferBound (fun p => p.2) (dictKeys [(((0 : Int), (1 : Int)), (5 : Int))]) ∧
       ∀ p ∈ dictKeys [(((0 : Int), (1 : Int)), (5 : Int))],
         p.1 < (⟨1, 2, [((0, 1), 5)]⟩ : SparseMatrix).numRows ∧
         p.2 < (⟨1, 2, [((0, 1), 5)]⟩ : SparseMatrix).numCols)) ∧
    (Var.loadFromText ["", "", "oops"] = .error (.formatWrap .wrongFormat) ∧
      (∃ e0, (PyError.formatWrap .wrongFormat) = .formatWrap e0) ∧
      PyError.isIndexErrorClass (.formatWrap .wrongFormat) = false) :=
  ⟨⟨by decide,
    (C10_infer_dims ["", "", "(0,1,5)"]).2 ⟨1, 2, [((0, 1), 5)]⟩ (by decide)⟩,
   ⟨by decide,
    ((C10_infer_dims ["", "", "oops"]).1 (.formatWrap .wrongFormat) (by decide)).1,
    ((C10_infer_dims ["", "", "oops"]).1 (.formatWrap .wrongFormat) (by decide)).2⟩⟩
